import Mathlib

/-
Verification development for the keyed concurrency core of the
summoner-agentclass repository.

The embedded code:
  * src/tooling/aurora/utils/async_keyed_mutex.py : AsyncKeyedMutex
      (a table of per-key asyncio.Lock objects with reference counts,
       mutated only under a dedicated table guard lock)
  * src/tooling/aurora/agent.py : SummonerAgent.keyed_receive
      (registration-time validation, the `_seq` resolver, and the
       `wrapped` per-invocation handler that acquires the per-(route,key)
       mutex, performs the replay check against `_seq_seen`, and invokes
       the user handler)

Pure code is embedded as Lean functions; the concurrent behaviour of the
mutex and the wrapped handler is embedded as a small-step interleaving
semantics over an explicit system state, with one event constructor per
suspension point or atomic segment of the Python source.
-/

namespace Aurora

/-- A composite (route, key) index. Both the lock table used by `wrapped`
(which calls `self._key_mutex.lock((route, k))`) and the sequence table
`self._seq_seen` are indexed by this composite. -/
structure RK where
  route : String
  key : String
deriving DecidableEq

/-- Resolved sequence extraction for one payload, as seen inside `wrapped`:
`sval none` models `_seq` returning `None` (no `seq_by` configured),
`sval (some s)` a successfully extracted sequence, and `sfail e` the
sequence resolver raising (an extraction error) with message `e`. -/
inductive SeqX where
  | sval (s : Option Int)
  | sfail (e : String)
deriving DecidableEq

/-- Outcome of the user handler body: normal return of an optional event
value, or an exception with message `e`. -/
inductive HRes where
  | hok (v : Option Int)
  | herr (e : String)
deriving DecidableEq

/-- Observable outcome of one `wrapped` invocation: a normal return value
(`ret none` for the stale-drop path and for handlers returning `None`),
or a propagated exception. -/
inductive Outcome where
  | ret (v : Option Int)
  | raised (e : String)
deriving DecidableEq

/-- Pointwise update of a table represented as a function out of `RK`.
Models a Python dict assignment or deletion at one key. -/
def upd {A : Type} (f : RK → A) (k : RK) (v : A) : RK → A :=
  fun x => if x = k then v else f x

/-- How `seq_by` was supplied to `keyed_receive`: absent, a string field
name, or a callable. Mirrors the three branches building `_seq`
(agent.py lines 125-131). -/
inductive SeqBy where
  | nul
  | str (s : String)
  | fn (f : (String → Int) → Int)

/-- The `_seq` resolver built by `keyed_receive` (agent.py lines 125-131),
applied to a payload modelled as a total field valuation. When `seq_by`
is absent the resolver ignores the payload and yields `none`; a string
is a field lookup; a callable is applied. -/
def resolveSeq : SeqBy → (String → Int) → Option Int
  | SeqBy.nul, _ => none
  | SeqBy.str s, p => some (p s)
  | SeqBy.fn f, p => some (f p)

/-- The replay check performed inside the critical section of `wrapped`
(agent.py lines 161-166): with no sequence, accept and leave the table
alone; otherwise compare against `_seq_seen.get((route, k))`, reject when
`s <= last`, and on acceptance record `s` as the new last value.
Returns (accepted, updated table). -/
def seqCheck (rk : RK) (s : Option Int) (seen : RK → Option Int) :
    Bool × (RK → Option Int) :=
  match s with
  | none => (true, seen)
  | some sv =>
    match seen rk with
    | some last =>
      if sv ≤ last then (false, seen) else (true, upd seen rk (some sv))
    | none => (true, upd seen rk (some sv))

/-- The body of `wrapped` inside the critical section (agent.py lines
161-167), as a function of the resolved-sequence behaviour, the user
handler's behaviour and the sequence table. Returns
(handler invoked?, outcome, updated sequence table). A raising sequence
resolver propagates; a rejected sequence returns `None` without touching
the handler; an accepted one records the sequence and then runs the
handler, whose value or exception is propagated. -/
def wrappedBody (rk : RK) (sx : SeqX) (h : HRes) (seen : RK → Option Int) :
    Bool × Outcome × (RK → Option Int) :=
  match sx with
  | SeqX.sfail e => (false, Outcome.raised e, seen)
  | SeqX.sval s =>
    match seqCheck rk s seen with
    | (false, seen2) => (false, Outcome.ret none, seen2)
    | (true, seen2) =>
      match h with
      | HRes.hok v => (true, Outcome.ret v, seen2)
      | HRes.herr e => (true, Outcome.raised e, seen2)

/-- How `key_by` was supplied: a string field name or a callable (the
content is irrelevant to registration-time validation, which only checks
presence). -/
inductive KeyBySpec where
  | str (s : String)
  | fn
deriving Inhabited

/-- Registration-time configuration errors: `missingKeyBy` models the
`ValueError` raised by `keyed_receive` when `key_by is None` (agent.py
lines 116-117); `notAsync` models the `TypeError` raised by `decorator`
when the handler is not a coroutine function (lines 134-135). -/
inductive RegError where
  | missingKeyBy
  | notAsync
deriving DecidableEq

/-- Registration-visible agent state: the `_dna_receivers` metadata log
and the list of registration closures handed to `_schedule_registration`.
Receiver-index insertion happens only inside a scheduled closure, so an
empty delta on `scheduled` means no receiver is ever registered. -/
structure RegState where
  dna : List String
  scheduled : List String
deriving DecidableEq

/-- Applying `keyed_receive(route, key_by, ...)` and then its decorator to
a handler, in source order (agent.py lines 113-182): `keyed_receive`
first raises if `key_by` is `None`; the decorator then raises if the
handler is not a coroutine function; only after both checks does it
append the DNA entry and schedule the registration closure. Errors are
raised before any mutation, so the state is returned unchanged in both
failure cases. -/
def keyedReceiveRegister (key_by : Option KeyBySpec) (fnName : String)
    (isAsync : Bool) (st : RegState) : RegState × Option RegError :=
  match key_by with
  | none => (st, some RegError.missingKeyBy)
  | some _ =>
    if isAsync then
      ({ dna := st.dna ++ [fnName], scheduled := st.scheduled ++ [fnName] },
       none)
    else (st, some RegError.notAsync)

/-- Program counter of one `wrapped` invocation, one value per atomic
segment of the Python source between suspension points.
`waitGuardEnter`: before `async with mutex._guard` in `_Guard.__aenter__`;
`holdGuardEnter`: holding the table guard, about to create the entry and
increment the refcount; `waitLock`: guard released, suspended in
`await self_nonlocal._lock.acquire()`; `body`: lock held, executing the
user handler; `doneBody`: body finished (normal, stale-drop or exception),
about to run `__aexit__`; `released`: `self_nonlocal._lock.release()`
done, before `async with mutex._guard` in `__aexit__`; `holdGuardExit`:
holding the guard for the decrement/evict bookkeeping; `done`: invocation
complete, outcome delivered; `cancelled`: a CancelledError was delivered
while suspended in `acquire()`, so `__aenter__` raised and, per the
semantics of `async with`, `__aexit__` never runs. -/
inductive Pc where
  | waitGuardEnter
  | holdGuardEnter
  | waitLock
  | body
  | doneBody
  | released
  | holdGuardExit
  | done
  | cancelled
deriving DecidableEq

/-- One logical task: a single `wrapped(payload)` invocation with its
composite (route, key), the payload's resolved-sequence behaviour, the
handler's behaviour on this payload, its program counter and, once the
critical section has finished, its outcome. -/
structure Task where
  rk : RK
  seqx : SeqX
  hres : HRes
  pc : Pc
  outcome : Option Outcome
deriving DecidableEq

/-- The shared state: the task list (index = task id), the AsyncKeyedMutex
tables — `locks` maps a present key to its lock's holder (`some none` =
entry exists, unlocked; `some (some i)` = held by task i), `refs` is
`mutex._refs` — the table guard's holder, and the agent's `_seq_seen`. -/
structure Sys where
  tasks : List Task
  locks : RK → Option (Option Nat)
  refs : RK → Option Nat
  guard : Option Nat
  seen : RK → Option Int

/-- Scheduler events: each fires one atomic segment of one task. -/
inductive Ev where
  | enterGuardAcq (i : Nat)
  | enterGuardRel (i : Nat)
  | acquireLock (i : Nat)
  | cancelWait (i : Nat)
  | finishBody (i : Nat)
  | releaseLock (i : Nat)
  | exitGuardAcq (i : Nat)
  | exitGuardRel (i : Nat)
deriving DecidableEq

/-- The task id an event belongs to. -/
def evTask : Ev → Nat
  | Ev.enterGuardAcq i => i
  | Ev.enterGuardRel i => i
  | Ev.acquireLock i => i
  | Ev.cancelWait i => i
  | Ev.finishBody i => i
  | Ev.releaseLock i => i
  | Ev.exitGuardAcq i => i
  | Ev.exitGuardRel i => i

/-- One interleaving step. Returns `none` when the event is not enabled
(wrong program counter, guard or lock unavailable). Each enabled branch
is a direct transcription of the corresponding atomic segment of
`_Guard.__aenter__`, `_Guard.__aexit__` (async_keyed_mutex.py lines
13-29) and `wrapped` (agent.py lines 158-167):

* `enterGuardAcq`: acquire `mutex._guard` (must be free).
* `enterGuardRel`: under the guard: `lock = mutex._locks.get(key)`; if
  absent create it and set `mutex._refs[key] = 0`; then
  `mutex._refs[key] += 1`; release the guard and move to the
  `await lock.acquire()` suspension.
* `acquireLock`: the key's lock is free, so `acquire()` returns and the
  critical section starts; the replay check (lines 161-166) runs
  synchronously — no await — so it is part of the same atomic segment:
  a raising resolver or a stale sequence ends the body at once.
* `cancelWait`: a CancelledError is delivered to a task suspended in
  `acquire()` while the lock is held by someone else. `__aenter__`
  raises, so the `async with` never runs `__aexit__`: no bookkeeping is
  reverted (this is exactly what the source does).
* `finishBody`: the user handler finishes, normally or by raising.
* `releaseLock`: `self_nonlocal._lock.release()` — the first statement of
  `__aexit__`, before the guard is re-taken.
* `exitGuardAcq`: acquire `mutex._guard` inside `__aexit__`.
* `exitGuardRel`: under the guard: `mutex._refs[key] -= 1`; if the result
  is 0, delete both table entries; release the guard; the invocation's
  outcome is delivered to the caller. -/
def step (s : Sys) (e : Ev) : Option Sys :=
  match e with
  | Ev.enterGuardAcq i =>
    match s.tasks.get? i with
    | none => none
    | some t =>
      if t.pc = Pc.waitGuardEnter ∧ s.guard = none then
        some { s with
          tasks := s.tasks.set i { t with pc := Pc.holdGuardEnter },
          guard := some i }
      else none
  | Ev.enterGuardRel i =>
    match s.tasks.get? i with
    | none => none
    | some t =>
      if t.pc = Pc.holdGuardEnter ∧ s.guard = some i then
        match s.locks t.rk with
        | none =>
          some { s with
            tasks := s.tasks.set i { t with pc := Pc.waitLock },
            locks := upd s.locks t.rk (some none),
            refs := upd s.refs t.rk (some 1),
            guard := none }
        | some _ =>
          some { s with
            tasks := s.tasks.set i { t with pc := Pc.waitLock },
            refs := upd s.refs t.rk (some ((s.refs t.rk).getD 0 + 1)),
            guard := none }
      else none
  | Ev.acquireLock i =>
    match s.tasks.get? i with
    | none => none
    | some t =>
      if t.pc = Pc.waitLock ∧ s.locks t.rk = some none then
        match t.seqx with
        | SeqX.sfail e =>
          some { s with
            tasks := s.tasks.set i
              { t with pc := Pc.doneBody, outcome := some (Outcome.raised e) },
            locks := upd s.locks t.rk (some (some i)) }
        | SeqX.sval sv =>
          match seqCheck t.rk sv s.seen with
          | (false, _) =>
            some { s with
              tasks := s.tasks.set i
                { t with pc := Pc.doneBody, outcome := some (Outcome.ret none) },
              locks := upd s.locks t.rk (some (some i)) }
          | (true, seen2) =>
            some { s with
              tasks := s.tasks.set i { t with pc := Pc.body },
              locks := upd s.locks t.rk (some (some i)),
              seen := seen2 }
      else none
  | Ev.cancelWait i =>
    match s.tasks.get? i with
    | none => none
    | some t =>
      if t.pc = Pc.waitLock then
        match s.locks t.rk with
        | some (some _) =>
          some { s with tasks := s.tasks.set i { t with pc := Pc.cancelled } }
        | _ => none
      else none
  | Ev.finishBody i =>
    match s.tasks.get? i with
    | none => none
    | some t =>
      if t.pc = Pc.body then
        match t.hres with
        | HRes.hok v =>
          some { s with
            tasks := s.tasks.set i
              { t with pc := Pc.doneBody, outcome := some (Outcome.ret v) } }
        | HRes.herr e =>
          some { s with
            tasks := s.tasks.set i
              { t with pc := Pc.doneBody, outcome := some (Outcome.raised e) } }
      else none
  | Ev.releaseLock i =>
    match s.tasks.get? i with
    | none => none
    | some t =>
      if t.pc = Pc.doneBody then
        some { s with
          tasks := s.tasks.set i { t with pc := Pc.released },
          locks := upd s.locks t.rk (some none) }
      else none
  | Ev.exitGuardAcq i =>
    match s.tasks.get? i with
    | none => none
    | some t =>
      if t.pc = Pc.released ∧ s.guard = none then
        some { s with
          tasks := s.tasks.set i { t with pc := Pc.holdGuardExit },
          guard := some i }
      else none
  | Ev.exitGuardRel i =>
    match s.tasks.get? i with
    | none => none
    | some t =>
      if t.pc = Pc.holdGuardExit ∧ s.guard = some i then
        match s.refs t.rk with
        | none => none
        | some n =>
          if n - 1 = 0 then
            some { s with
              tasks := s.tasks.set i { t with pc := Pc.done },
              locks := upd s.locks t.rk none,
              refs := upd s.refs t.rk none,
              guard := none }
          else
            some { s with
              tasks := s.tasks.set i { t with pc := Pc.done },
              refs := upd s.refs t.rk (some (n - 1)),
              guard := none }
      else none

/-- Run a list of scheduler events; fails if any event is not enabled. -/
def run (s : Sys) : List Ev → Option Sys
  | [] => some s
  | e :: es =>
    match step s e with
    | some s2 => run s2 es
    | none => none

/-- Static description of one pending invocation. -/
structure TaskSpec where
  rk : RK
  seqx : SeqX
  hres : HRes

/-- A fresh task for a spec: about to enter `_Guard.__aenter__`. -/
def initTask (sp : TaskSpec) : Task :=
  { rk := sp.rk, seqx := sp.seqx, hres := sp.hres,
    pc := Pc.waitGuardEnter, outcome := none }

/-- Initial system: a fresh `AsyncKeyedMutex` (empty `_locks`, empty
`_refs`, guard free), an empty `_seq_seen`, and the given pending
invocations. -/
def initSys (sps : List TaskSpec) : Sys :=
  { tasks := sps.map initTask,
    locks := fun _ => none,
    refs := fun _ => none,
    guard := none,
    seen := fun _ => none }

/-- Program counters during which the task is counted in `mutex._refs`
for its key: from the increment in `__aenter__` to the decrement in
`__aexit__` — and forever, for a task cancelled while waiting, since
`__aexit__` never runs for it. -/
def countedPc : Pc → Bool
  | Pc.waitLock => true
  | Pc.body => true
  | Pc.doneBody => true
  | Pc.released => true
  | Pc.holdGuardExit => true
  | Pc.cancelled => true
  | _ => false

/-- Program counters during which the task holds its key's per-key lock:
the critical section (sequence check and handler body, until
`_lock.release()`). -/
def holderPc : Pc → Bool
  | Pc.body => true
  | Pc.doneBody => true
  | _ => false

/-- Count of elements satisfying a boolean predicate. -/
def countB {A : Type} (p : A → Bool) : List A → Nat
  | [] => 0
  | a :: l => cond (p a) 1 0 + countB p l

/-- Number of tasks currently holding or awaiting (or having abandoned a
cancelled wait for) key `k`'s lock. -/
def refCount (s : Sys) (k : RK) : Nat :=
  countB (fun t => decide (t.rk = k) && countedPc t.pc) s.tasks

/-- Number of tasks currently inside key `k`'s critical section. -/
def critCount (s : Sys) (k : RK) : Nat :=
  countB (fun t => decide (t.rk = k) && holderPc t.pc) s.tasks

/-- All invocations have completed normally. -/
def tasksDone : List Task → Bool
  | [] => true
  | t :: ts => decide (t.pc = Pc.done) && tasksDone ts

/-- The state reached by a concrete schedule (defaulting to the initial
state when the schedule is not enabled; the accompanying theorems always
establish enabledness separately). -/
def sysOf (sps : List TaskSpec) (evs : List Ev) : Sys :=
  (run (initSys sps) evs).getD (initSys sps)

/-- A concrete composite: route "r", key "a". -/
def rkA : RK := { route := "r", key := "a" }

/-- A concrete composite on a different route with the same key value. -/
def rkB : RK := { route := "r2", key := "a" }

/-- A concrete sequence table holding 7 for `rkA` and nothing else. -/
def seenC2a : RK → Option Int :=
  fun x => if x = rkA then some 7 else none

/-- The empty sequence table. -/
def seenEmpty : RK → Option Int := fun _ => none

/-- Two invocations for the same key, no sequence configured. -/
def specsTwo : List TaskSpec :=
  [{ rk := rkA, seqx := SeqX.sval none, hres := HRes.hok none },
   { rk := rkA, seqx := SeqX.sval none, hres := HRes.hok none }]

/-- Schedule: task 0 enters its critical section, task 1 registers
interest and is left suspended waiting for the contended lock. -/
def evsC1w : List Ev :=
  [Ev.enterGuardAcq 0, Ev.enterGuardRel 0, Ev.acquireLock 0,
   Ev.enterGuardAcq 1, Ev.enterGuardRel 1]

/-- State with task 0 inside the critical section and task 1 waiting. -/
def sysC1w : Sys := sysOf specsTwo evsC1w

/-- Schedule: task 0 acquires; task 1 registers interest (refcount 2) and
is then cancelled while suspended in `acquire()`; task 0 completes. -/
def evsC3w : List Ev :=
  [Ev.enterGuardAcq 0, Ev.enterGuardRel 0, Ev.acquireLock 0,
   Ev.enterGuardAcq 1, Ev.enterGuardRel 1, Ev.cancelWait 1,
   Ev.finishBody 0, Ev.releaseLock 0, Ev.exitGuardAcq 0, Ev.exitGuardRel 0]

/-- Final state of the cancellation schedule. -/
def sysC3w : Sys := sysOf specsTwo evsC3w

/-- Schedule: both invocations run to completion, one after the other. -/
def evsC4w : List Ev :=
  [Ev.enterGuardAcq 0, Ev.enterGuardRel 0, Ev.acquireLock 0, Ev.finishBody 0,
   Ev.releaseLock 0, Ev.exitGuardAcq 0, Ev.exitGuardRel 0,
   Ev.enterGuardAcq 1, Ev.enterGuardRel 1, Ev.acquireLock 1, Ev.finishBody 1,
   Ev.releaseLock 1, Ev.exitGuardAcq 1, Ev.exitGuardRel 1]

/-- Final state of the full completion schedule. -/
def sysC4w : Sys := sysOf specsTwo evsC4w

/-- One invocation whose handler raises. -/
def specsC5 : List TaskSpec :=
  [{ rk := rkA, seqx := SeqX.sval none, hres := HRes.herr "boom" }]

/-- Schedule stopping right after the handler raised, with the lock still
held and `__aexit__` about to run. -/
def evsC5w : List Ev :=
  [Ev.enterGuardAcq 0, Ev.enterGuardRel 0, Ev.acquireLock 0, Ev.finishBody 0]

/-- State with task 0 at the start of `__aexit__` after its handler
raised. -/
def sysC5w : Sys := sysOf specsC5 evsC5w

/-- The three-segment exit path of `__aexit__` for task 0. -/
def evsC5exit : List Ev :=
  [Ev.releaseLock 0, Ev.exitGuardAcq 0, Ev.exitGuardRel 0]

/-- State after the exit path of task 0 completed. -/
def sysC5b : Sys := (run sysC5w evsC5exit).getD sysC5w

/-- One invocation carrying sequence 5. -/
def specsC7 : List TaskSpec :=
  [{ rk := rkA, seqx := SeqX.sval (some 5), hres := HRes.hok none }]

/-- Prefix schedule bringing task 0 to the lock-wait suspension. -/
def evsC7pre : List Ev :=
  [Ev.enterGuardAcq 0, Ev.enterGuardRel 0]

/-- State just before task 0 acquires its lock and records its
sequence. -/
def sysC7pre : Sys := sysOf specsC7 evsC7pre

/-- State after task 0 acquired its lock and recorded sequence 5. -/
def sysC7post : Sys := (step sysC7pre (Ev.acquireLock 0)).getD sysC7pre

/-- Schedule stopping while task 0 holds the table guard in
`__aenter__`. -/
def evsC8w : List Ev := [Ev.enterGuardAcq 0]

/-- State with the table guard held by task 0. -/
def sysC8w : Sys := sysOf specsC7 evsC8w

/-- Task 0 of `sysC5w`: handler raised, still holding the lock. -/
def tC5 : Task :=
  { rk := rkA, seqx := SeqX.sval none, hres := HRes.herr "boom",
    pc := Pc.doneBody, outcome := some (Outcome.raised "boom") }

/-- Task 0 of `sysC7pre`: waiting on its key's free lock. -/
def tC7 : Task :=
  { rk := rkA, seqx := SeqX.sval (some 5), hres := HRes.hok none,
    pc := Pc.waitLock, outcome := none }

/-- Task 0 of `sysC8w`: inside the guard-held segment of `__aenter__`. -/
def tC8 : Task :=
  { rk := rkA, seqx := SeqX.sval (some 5), hres := HRes.hok none,
    pc := Pc.holdGuardEnter, outcome := none }

/-- Task 0 of `sysC3w`: completed normally. -/
def tC3done : Task :=
  { rk := rkA, seqx := SeqX.sval none, hres := HRes.hok none,
    pc := Pc.done, outcome := some (Outcome.ret none) }

/-- Task 1 of `sysC3w`: cancelled while waiting, bookkeeping never
reverted. -/
def tC3cancelled : Task :=
  { rk := rkA, seqx := SeqX.sval none, hres := HRes.hok none,
    pc := Pc.cancelled, outcome := none }

/-- The reachable-state invariant of the keyed-mutex semantics:
`refsEq` — `mutex._refs[k]` is exactly the number of tasks currently
counted for `k` (absent when zero); `locksRefs` — `_locks` and `_refs`
have entries for exactly the same keys; `holderFwd`/`holderBwd` — a task
is inside key `k`'s critical section exactly when it is recorded as the
holder of `k`'s lock; `guardFwd` — whoever holds the table guard is in
one of the two bounded guard-held segments of `__aenter__`/`__aexit__`. -/
structure Inv (s : Sys) : Prop where
  refsEq : ∀ k, s.refs k =
    if refCount s k = 0 then none else some (refCount s k)
  locksRefs : ∀ k, s.locks k = none ↔ s.refs k = none
  holderFwd : ∀ i t, s.tasks.get? i = some t → holderPc t.pc = true →
    s.locks t.rk = some (some i)
  holderBwd : ∀ k i, s.locks k = some (some i) →
    ∃ t, s.tasks.get? i = some t ∧ t.rk = k ∧ holderPc t.pc = true
  guardFwd : ∀ i, s.guard = some i →
    ∃ t, s.tasks.get? i = some t ∧
      (t.pc = Pc.holdGuardEnter ∨ t.pc = Pc.holdGuardExit)

/-- Reading back the element just written by `List.set`. -/
theorem get_set_self {A : Type} (l : List A) (i : Nat) (a b : A)
    (h : l.get? i = some a) : (l.set i b).get? i = some b := by
  induction l generalizing i with
  | nil => cases h
  | cons x xs ih =>
    cases i with
    | zero => rfl
    | succ n => exact ih n h

/-- `List.set` leaves every other position unread. -/
theorem get_set_other {A : Type} (l : List A) (i j : Nat) (b : A)
    (h : i ≠ j) : (l.set i b).get? j = l.get? j := by
  induction l generalizing i j with
  | nil => rfl
  | cons x xs ih =>
    cases i with
    | zero =>
      cases j with
      | zero => exact absurd rfl h
      | succ m => rfl
    | succ n =>
      cases j with
      | zero => rfl
      | succ m => exact ih n m (fun hnm => h (congrArg Nat.succ hnm))

/-- An element read by `List.get?` is a member. -/
theorem mem_of_get {A : Type} (l : List A) (i : Nat) (a : A)
    (h : l.get? i = some a) : a ∈ l := by
  induction l generalizing i with
  | nil => cases h
  | cons x xs ih =>
    cases i with
    | zero =>
      cases h
      exact List.mem_cons_self _ _
    | succ n => exact List.mem_cons_of_mem x (ih n h)

/-- Every member is read by `List.get?` at some position. -/
theorem get_of_mem {A : Type} (l : List A) (a : A) (h : a ∈ l) :
    ∃ i, l.get? i = some a := by
  induction l with
  | nil => cases h
  | cons x xs ih =>
    cases h with
    | head => exact ⟨0, rfl⟩
    | tail _ hmem =>
      obtain ⟨i, hi⟩ := ih hmem
      exact ⟨i + 1, hi⟩

/-- Unfolding `countB` on a cons cell. -/
theorem countB_cons {A : Type} (p : A → Bool) (a : A) (l : List A) :
    countB p (a :: l) = cond (p a) 1 0 + countB p l := rfl

/-- A count is zero exactly when no member satisfies the predicate. -/
theorem countB_eq_zero {A : Type} (p : A → Bool) (l : List A)
    (h : ∀ a ∈ l, p a = false) : countB p l = 0 := by
  induction l with
  | nil => rfl
  | cons x xs ih =>
    have hx : p x = false := h x (List.mem_cons_self x xs)
    rw [countB_cons, hx, cond_false]
    rw [ih (fun a ha => h a (List.mem_cons_of_mem x ha))]

/-- A member satisfying the predicate forces a positive count. -/
theorem one_le_countB {A : Type} (p : A → Bool) (l : List A) (a : A)
    (ha : a ∈ l) (hp : p a = true) : 1 ≤ countB p l := by
  induction l with
  | nil => cases ha
  | cons x xs ih =>
    rw [countB_cons]
    cases ha with
    | head => rw [hp, cond_true]; omega
    | tail _ hmem =>
      have h1 := ih hmem
      have h2 : 0 ≤ cond (p x) 1 0 := Nat.zero_le _
      omega

/-- Two distinct positions both satisfying the predicate force a count of
at least two. -/
theorem two_le_countB {A : Type} (p : A → Bool) (l : List A)
    (i j : Nat) (a b : A) (hij : i ≠ j) (ha : l.get? i = some a)
    (hb : l.get? j = some b) (hpa : p a = true) (hpb : p b = true) :
    2 ≤ countB p l := by
  induction l generalizing i j with
  | nil => cases ha
  | cons x xs ih =>
    rw [countB_cons]
    cases i with
    | zero =>
      cases ha
      cases j with
      | zero => exact absurd rfl hij
      | succ m =>
        have h1 := one_le_countB p xs b (mem_of_get xs m b hb) hpb
        rw [hpa, cond_true]
        omega
    | succ n =>
      cases j with
      | zero =>
        cases hb
        have h1 := one_le_countB p xs a (mem_of_get xs n a ha) hpa
        rw [hpb, cond_true]
        omega
      | succ m =>
        have h1 := ih n m (fun hnm => hij (congrArg Nat.succ hnm)) ha hb
        have h2 : 0 ≤ cond (p x) 1 0 := Nat.zero_le _
        omega

/-- Replacing an element by one with the same predicate value keeps the
count. -/
theorem countB_set_same {A : Type} (p : A → Bool) (l : List A) (i : Nat)
    (a b : A) (ha : l.get? i = some a) (hab : p a = p b) :
    countB p (l.set i b) = countB p l := by
  induction l generalizing i with
  | nil => cases ha
  | cons x xs ih =>
    cases i with
    | zero =>
      cases ha
      simp only [List.set, countB_cons, hab]
    | succ n =>
      simp only [List.set, countB_cons]
      rw [ih n ha]

/-- Replacing a non-satisfying element by a satisfying one increments the
count. -/
theorem countB_set_incr {A : Type} (p : A → Bool) (l : List A) (i : Nat)
    (a b : A) (ha : l.get? i = some a) (hpa : p a = false)
    (hpb : p b = true) : countB p (l.set i b) = countB p l + 1 := by
  induction l generalizing i with
  | nil => cases ha
  | cons x xs ih =>
    cases i with
    | zero =>
      cases ha
      simp only [List.set, countB_cons, hpa, hpb, cond_true, cond_false]
      omega
    | succ n =>
      simp only [List.set, countB_cons]
      rw [ih n ha]
      omega

/-- Replacing a satisfying element by a non-satisfying one decrements the
count. -/
theorem countB_set_decr {A : Type} (p : A → Bool) (l : List A) (i : Nat)
    (a b : A) (ha : l.get? i = some a) (hpa : p a = true)
    (hpb : p b = false) : countB p l = countB p (l.set i b) + 1 := by
  induction l generalizing i with
  | nil => cases ha
  | cons x xs ih =>
    cases i with
    | zero =>
      cases ha
      simp only [List.set, countB_cons, hpa, hpb, cond_true, cond_false]
      omega
    | succ n =>
      simp only [List.set, countB_cons]
      rw [ih n ha]
      omega

/-- At most one position satisfies the predicate, so the count is at most
one. -/
theorem countB_le_one {A : Type} (p : A → Bool) (l : List A)
    (h : ∀ i j a b, l.get? i = some a → l.get? j = some b →
      p a = true → p b = true → i = j) : countB p l ≤ 1 := by
  induction l with
  | nil => exact Nat.zero_le 1
  | cons x xs ih =>
    rw [countB_cons]
    by_cases hx : p x = true
    · have hz : countB p xs = 0 := by
        apply countB_eq_zero
        intro a ha
        by_contra hpa
        have hpa2 : p a = true := by
          cases hv : p a with
          | false => exact absurd hv hpa
          | true => rfl
        obtain ⟨m, hm⟩ := get_of_mem xs a ha
        have h01 : (0 : Nat) = m + 1 :=
          h 0 (m + 1) x a rfl hm hx hpa2
        cases h01
      rw [hx, hz, cond_true]
    · have hx2 : p x = false := by
        cases hv : p x with
        | false => rfl
        | true => exact absurd hv hx
      rw [hx2, cond_false]
      have h1 := ih (fun i j a b hia hjb hpa hpb =>
        Nat.succ_injective
          (h (i + 1) (j + 1) a b hia hjb hpa hpb))
      omega

/-- `tasksDone` means every task has completed. -/
theorem tasksDone_spec (l : List Task) (h : tasksDone l = true) :
    ∀ t ∈ l, t.pc = Pc.done := by
  induction l with
  | nil => intro t ht; cases ht
  | cons x xs ih =>
    simp only [tasksDone, Bool.and_eq_true, decide_eq_true_eq] at h
    intro t ht
    cases ht with
    | head => exact h.1
    | tail _ hmem => exact ih h.2 t hmem

/-- Reading an updated table at the updated key. -/
theorem upd_self {A : Type} (f : RK → A) (k : RK) (v : A) :
    upd f k v k = v := by
  simp [upd]

/-- Reading an updated table at any other key. -/
theorem upd_other {A : Type} (f : RK → A) (k : RK) (v : A) (x : RK)
    (h : x ≠ k) : upd f k v x = f x := by
  simp [upd, h]

/-- The initial system satisfies the invariant. -/
theorem inv_init (sps : List TaskSpec) : Inv (initSys sps) := by
  refine ⟨?_, ?_, ?_, ?_, ?_⟩
  · intro k
    have hz : refCount (initSys sps) k = 0 := by
      apply countB_eq_zero
      intro t ht
      simp only [initSys] at ht
      obtain ⟨sp, _, hsp⟩ := List.mem_map.mp ht
      rw [← hsp]
      simp [initTask, countedPc]
    rw [hz]
    rfl
  · intro k
    exact ⟨fun _ => rfl, fun _ => rfl⟩
  · intro i t hget hhold
    exfalso
    have ht := mem_of_get _ _ _ hget
    simp only [initSys] at ht
    obtain ⟨sp, _, hsp⟩ := List.mem_map.mp ht
    rw [← hsp] at hhold
    simp [initTask, holderPc] at hhold
  · intro k i hlk
    cases hlk
  · intro i hg
    cases hg

/-- Preservation for a step that rewrites one task without changing its
key, its counted status, its holder status or its guard-segment status,
and leaves the tables and the guard untouched. -/
theorem inv_tasks_update (s : Sys) (i : Nat) (t t2 : Task) (hs : Inv s)
    (hget : s.tasks.get? i = some t)
    (hrk : t2.rk = t.rk)
    (hcnt : countedPc t2.pc = countedPc t.pc)
    (hhold : holderPc t2.pc = holderPc t.pc)
    (hgpc : (t2.pc = Pc.holdGuardEnter ∨ t2.pc = Pc.holdGuardExit)
      ↔ (t.pc = Pc.holdGuardEnter ∨ t.pc = Pc.holdGuardExit)) :
    Inv { s with tasks := s.tasks.set i t2 } := by
  have hcount : ∀ k, refCount { s with tasks := s.tasks.set i t2 } k
      = refCount s k := by
    intro k
    apply countB_set_same _ _ _ _ _ hget
    rw [hrk, hcnt]
  refine ⟨?_, hs.locksRefs, ?_, ?_, ?_⟩
  · intro k
    rw [hcount k]
    exact hs.refsEq k
  · intro j u hj hu
    by_cases hij : i = j
    · subst hij
      rw [get_set_self _ _ _ _ hget] at hj
      cases hj
      rw [hrk]
      exact hs.holderFwd i t hget (by rw [← hhold]; exact hu)
    · rw [get_set_other _ _ _ _ hij] at hj
      exact hs.holderFwd j u hj hu
  · intro k j hlk
    obtain ⟨u, hu, hurk, huh⟩ := hs.holderBwd k j hlk
    by_cases hij : i = j
    · subst hij
      rw [hget] at hu
      cases hu
      exact ⟨t2, get_set_self _ _ _ _ hget, by rw [hrk]; exact hurk,
        by rw [hhold]; exact huh⟩
    · exact ⟨u, by rw [get_set_other _ _ _ _ hij]; exact hu, hurk, huh⟩
  · intro j hg
    obtain ⟨u, hu, hupc⟩ := hs.guardFwd j hg
    by_cases hij : i = j
    · subst hij
      rw [hget] at hu
      cases hu
      exact ⟨t2, get_set_self _ _ _ _ hget, hgpc.mpr hupc⟩
    · exact ⟨u, by rw [get_set_other _ _ _ _ hij]; exact hu, hupc⟩

/-- Preservation for the two guard-acquisition segments: one task moves
into a guard-held program counter and becomes the guard holder; tables
unchanged. -/
theorem inv_guard_acquire (s : Sys) (i : Nat) (t : Task) (p2 : Pc)
    (hs : Inv s) (hget : s.tasks.get? i = some t)
    (hcnt : countedPc p2 = countedPc t.pc)
    (hhold1 : holderPc t.pc = false) (hhold2 : holderPc p2 = false)
    (hp2 : p2 = Pc.holdGuardEnter ∨ p2 = Pc.holdGuardExit) :
    Inv { s with tasks := s.tasks.set i { t with pc := p2 },
                 guard := some i } := by
  have hcount : ∀ k,
      refCount { s with tasks := s.tasks.set i { t with pc := p2 },
                        guard := some i } k = refCount s k := by
    intro k
    apply countB_set_same _ _ _ _ _ hget
    show (decide (t.rk = k) && countedPc t.pc)
      = (decide (t.rk = k) && countedPc p2)
    rw [hcnt]
  refine ⟨?_, hs.locksRefs, ?_, ?_, ?_⟩
  · intro k
    rw [hcount k]
    exact hs.refsEq k
  · intro j u hj hu
    by_cases hij : i = j
    · subst hij
      rw [get_set_self _ _ _ _ hget] at hj
      cases hj
      exact absurd hu (by rw [hhold2]; exact Bool.false_ne_true)
    · rw [get_set_other _ _ _ _ hij] at hj
      exact hs.holderFwd j u hj hu
  · intro k j hlk
    obtain ⟨u, hu, hurk, huh⟩ := hs.holderBwd k j hlk
    by_cases hij : i = j
    · subst hij
      rw [hget] at hu
      cases hu
      exact absurd huh (by rw [hhold1]; exact Bool.false_ne_true)
    · exact ⟨u, by rw [get_set_other _ _ _ _ hij]; exact hu, hurk, huh⟩
  · intro j hg
    have hij : i = j := by
      have hg2 : some i = some j := hg
      cases hg2
      rfl
    subst hij
    exact ⟨{ t with pc := p2 }, get_set_self _ _ _ _ hget, hp2⟩

/-- Preservation for `releaseLock`: the holder leaves the critical
section and its key's lock becomes free; refcounts unchanged. -/
theorem inv_releaseLock (s : Sys) (i : Nat) (t : Task) (hs : Inv s)
    (hget : s.tasks.get? i = some t) (hpc : t.pc = Pc.doneBody) :
    Inv { s with tasks := s.tasks.set i { t with pc := Pc.released },
                 locks := upd s.locks t.rk (some none) } := by
  have hholdt : holderPc t.pc = true := by rw [hpc]; rfl
  have hlockt : s.locks t.rk = some (some i) := hs.holderFwd i t hget hholdt
  have hcount : ∀ k,
      refCount { s with tasks := s.tasks.set i { t with pc := Pc.released },
                        locks := upd s.locks t.rk (some none) } k
      = refCount s k := by
    intro k
    apply countB_set_same _ _ _ _ _ hget
    show (decide (t.rk = k) && countedPc t.pc)
      = (decide (t.rk = k) && countedPc Pc.released)
    rw [hpc]
    rfl
  refine ⟨?_, ?_, ?_, ?_, ?_⟩
  · intro k
    rw [hcount k]
    exact hs.refsEq k
  · intro k
    by_cases hk : k = t.rk
    · subst hk
      constructor
      · intro hnone
        exfalso
        have h1 : upd s.locks t.rk (some none) t.rk = none := hnone
        rw [upd_self] at h1
        cases h1
      · intro hrnone
        exfalso
        have h1 := (hs.locksRefs t.rk).mpr hrnone
        rw [hlockt] at h1
        cases h1
    · constructor
      · intro hnone
        have h1 : upd s.locks t.rk (some none) k = none := hnone
        rw [upd_other _ _ _ _ hk] at h1
        exact (hs.locksRefs k).mp h1
      · intro hrnone
        show upd s.locks t.rk (some none) k = none
        rw [upd_other _ _ _ _ hk]
        exact (hs.locksRefs k).mpr hrnone
  · intro j u hj hu
    by_cases hij : i = j
    · subst hij
      rw [get_set_self _ _ _ _ hget] at hj
      cases hj
      exact absurd hu Bool.false_ne_true
    · rw [get_set_other _ _ _ _ hij] at hj
      have hold := hs.holderFwd j u hj hu
      by_cases hurk : u.rk = t.rk
      · exfalso
        rw [hurk, hlockt] at hold
        injection hold with h2
        injection h2 with h3
        exact hij h3
      · show upd s.locks t.rk (some none) u.rk = some (some j)
        rw [upd_other _ _ _ _ hurk]
        exact hold
  · intro k j hlk
    by_cases hk : k = t.rk
    · subst hk
      exfalso
      have h1 : upd s.locks t.rk (some none) t.rk = some (some j) := hlk
      rw [upd_self] at h1
      injection h1 with h2
      cases h2
    · have h1 : upd s.locks t.rk (some none) k = some (some j) := hlk
      rw [upd_other _ _ _ _ hk] at h1
      obtain ⟨u, hu, hurk, huh⟩ := hs.holderBwd k j h1
      by_cases hij : i = j
      · subst hij
        rw [hget] at hu
        cases hu
        exact absurd hurk.symm hk
      · exact ⟨u, by rw [get_set_other _ _ _ _ hij]; exact hu, hurk, huh⟩
  · intro j hg
    obtain ⟨u, hu, hupc⟩ := hs.guardFwd j hg
    by_cases hij : i = j
    · subst hij
      rw [hget] at hu
      cases hu
      exfalso
      rw [hpc] at hupc
      cases hupc with
      | inl h1 => cases h1
      | inr h1 => cases h1
    · exact ⟨u, by rw [get_set_other _ _ _ _ hij]; exact hu, hupc⟩

/-- Under the invariant, an absent refcount entry means no task is
counted for the key. -/
theorem count_zero_of_refs_none (s : Sys) (hs : Inv s) (k : RK)
    (h : s.refs k = none) : refCount s k = 0 := by
  have he := hs.refsEq k
  by_cases hc : refCount s k = 0
  · exact hc
  · rw [if_neg hc] at he
    rw [h] at he
    cases he

/-- Under the invariant, a present refcount entry stores exactly the
number of counted tasks. -/
theorem count_of_refs_some (s : Sys) (hs : Inv s) (k : RK) (n : Nat)
    (h : s.refs k = some n) : n = refCount s k ∧ refCount s k ≠ 0 := by
  have he := hs.refsEq k
  by_cases hc : refCount s k = 0
  · rw [if_pos hc] at he
    rw [h] at he
    cases he
  · rw [if_neg hc] at he
    rw [h] at he
    injection he with h2
    exact ⟨h2, hc⟩

/-- Preservation for `enterGuardRel`, creation case: the key had no
entry, so `__aenter__` creates the lock, sets the refcount to 0 and
increments it to 1, releases the guard, and the task moves to the
lock-wait suspension. -/
theorem inv_enterGuardRel_new (s : Sys) (i : Nat) (t : Task) (hs : Inv s)
    (hget : s.tasks.get? i = some t) (hpc : t.pc = Pc.holdGuardEnter)
    (hlk : s.locks t.rk = none) :
    Inv { s with tasks := s.tasks.set i { t with pc := Pc.waitLock },
                 locks := upd s.locks t.rk (some none),
                 refs := upd s.refs t.rk (some 1),
                 guard := none } := by
  have hrefs0 : s.refs t.rk = none := (hs.locksRefs t.rk).mp hlk
  have hcnt0 : refCount s t.rk = 0 := count_zero_of_refs_none s hs t.rk hrefs0
  have hcountK : ∀ k, k ≠ t.rk →
      countB (fun v => decide (v.rk = k) && countedPc v.pc)
        (s.tasks.set i { t with pc := Pc.waitLock })
      = refCount s k := by
    intro k hk
    apply countB_set_same _ _ _ _ _ hget
    have hd : decide (t.rk = k) = false := by
      simp only [decide_eq_false_iff_not]
      intro h2
      exact hk h2.symm
    show (decide (t.rk = k) && countedPc t.pc)
      = (decide (t.rk = k) && countedPc Pc.waitLock)
    rw [hd]
    rfl
  have hcountT :
      countB (fun v => decide (v.rk = t.rk) && countedPc v.pc)
        (s.tasks.set i { t with pc := Pc.waitLock })
      = refCount s t.rk + 1 := by
    apply countB_set_incr _ _ _ _ _ hget
    · rw [hpc]
      show (decide (t.rk = t.rk) && false) = false
      rw [Bool.and_false]
    · show (decide (t.rk = t.rk) && countedPc Pc.waitLock) = true
      rw [decide_eq_true rfl]
      rfl
  refine ⟨?_, ?_, ?_, ?_, ?_⟩
  · intro k
    by_cases hk : k = t.rk
    · subst hk
      show upd s.refs t.rk (some 1) t.rk = _
      rw [upd_self]
      have hc2 : refCount { s with
          tasks := s.tasks.set i { t with pc := Pc.waitLock },
          locks := upd s.locks t.rk (some none),
          refs := upd s.refs t.rk (some 1), guard := none } t.rk = 1 := by
        show countB _ (s.tasks.set i { t with pc := Pc.waitLock }) = 1
        rw [hcountT, hcnt0]
      rw [hc2]
      rfl
    · show upd s.refs t.rk (some 1) k = _
      rw [upd_other _ _ _ _ hk]
      have hc2 : refCount { s with
          tasks := s.tasks.set i { t with pc := Pc.waitLock },
          locks := upd s.locks t.rk (some none),
          refs := upd s.refs t.rk (some 1), guard := none } k
          = refCount s k := hcountK k hk
      rw [hc2]
      exact hs.refsEq k
  · intro k
    by_cases hk : k = t.rk
    · subst hk
      constructor
      · intro h2
        have h3 : upd s.locks t.rk (some none) t.rk = none := h2
        rw [upd_self] at h3
        cases h3
      · intro h2
        have h3 : upd s.refs t.rk (some 1) t.rk = none := h2
        rw [upd_self] at h3
        cases h3
    · constructor
      · intro h2
        have h3 : upd s.locks t.rk (some none) k = none := h2
        rw [upd_other _ _ _ _ hk] at h3
        show upd s.refs t.rk (some 1) k = none
        rw [upd_other _ _ _ _ hk]
        exact (hs.locksRefs k).mp h3
      · intro h2
        have h3 : upd s.refs t.rk (some 1) k = none := h2
        rw [upd_other _ _ _ _ hk] at h3
        show upd s.locks t.rk (some none) k = none
        rw [upd_other _ _ _ _ hk]
        exact (hs.locksRefs k).mpr h3
  · intro j u hj hu
    by_cases hij : i = j
    · subst hij
      rw [get_set_self _ _ _ _ hget] at hj
      cases hj
      exact absurd hu Bool.false_ne_true
    · rw [get_set_other _ _ _ _ hij] at hj
      have hold := hs.holderFwd j u hj hu
      by_cases hurk : u.rk = t.rk
      · exfalso
        rw [hurk, hlk] at hold
        cases hold
      · show upd s.locks t.rk (some none) u.rk = some (some j)
        rw [upd_other _ _ _ _ hurk]
        exact hold
  · intro k j hlk2
    by_cases hk : k = t.rk
    · subst hk
      exfalso
      have h3 : upd s.locks t.rk (some none) t.rk = some (some j) := hlk2
      rw [upd_self] at h3
      injection h3 with h4
      cases h4
    · have h3 : upd s.locks t.rk (some none) k = some (some j) := hlk2
      rw [upd_other _ _ _ _ hk] at h3
      obtain ⟨u, hu, hurk, huh⟩ := hs.holderBwd k j h3
      by_cases hij : i = j
      · subst hij
        rw [hget] at hu
        cases hu
        exact absurd (by rw [hpc] at huh; exact huh) Bool.false_ne_true
      · exact ⟨u, by rw [get_set_other _ _ _ _ hij]; exact hu, hurk, huh⟩
  · intro j hg
    cases hg

/-- Preservation for `enterGuardRel`, existing-entry case: `__aenter__`
finds the lock already present and only increments the refcount. -/
theorem inv_enterGuardRel_old (s : Sys) (i : Nat) (t : Task) (hs : Inv s)
    (hget : s.tasks.get? i = some t) (hpc : t.pc = Pc.holdGuardEnter)
    (w : Option Nat) (hlk : s.locks t.rk = some w) :
    Inv { s with tasks := s.tasks.set i { t with pc := Pc.waitLock },
                 refs := upd s.refs t.rk
                   (some ((s.refs t.rk).getD 0 + 1)),
                 guard := none } := by
  have hlknn : s.locks t.rk ≠ none := by rw [hlk]; exact Option.some_ne_none w
  have hrefsnn : s.refs t.rk ≠ none := by
    intro h2
    exact hlknn ((hs.locksRefs t.rk).mpr h2)
  obtain ⟨n, hn⟩ := Option.ne_none_iff_exists.mp hrefsnn
  obtain ⟨hnc, hc0⟩ := count_of_refs_some s hs t.rk n hn.symm
  have hgetd : (s.refs t.rk).getD 0 = n := by rw [← hn]; rfl
  have hcountK : ∀ k, k ≠ t.rk →
      countB (fun v => decide (v.rk = k) && countedPc v.pc)
        (s.tasks.set i { t with pc := Pc.waitLock })
      = refCount s k := by
    intro k hk
    apply countB_set_same _ _ _ _ _ hget
    have hd : decide (t.rk = k) = false := by
      simp only [decide_eq_false_iff_not]
      intro h2
      exact hk h2.symm
    show (decide (t.rk = k) && countedPc t.pc)
      = (decide (t.rk = k) && countedPc Pc.waitLock)
    rw [hd]
    rfl
  have hcountT :
      countB (fun v => decide (v.rk = t.rk) && countedPc v.pc)
        (s.tasks.set i { t with pc := Pc.waitLock })
      = refCount s t.rk + 1 := by
    apply countB_set_incr _ _ _ _ _ hget
    · rw [hpc]
      show (decide (t.rk = t.rk) && false) = false
      rw [Bool.and_false]
    · show (decide (t.rk = t.rk) && countedPc Pc.waitLock) = true
      rw [decide_eq_true rfl]
      rfl
  refine ⟨?_, ?_, ?_, ?_, ?_⟩
  · intro k
    by_cases hk : k = t.rk
    · subst hk
      show upd s.refs t.rk (some ((s.refs t.rk).getD 0 + 1)) t.rk = _
      rw [upd_self]
      have hc2 : refCount { s with
          tasks := s.tasks.set i { t with pc := Pc.waitLock },
          refs := upd s.refs t.rk (some ((s.refs t.rk).getD 0 + 1)),
          guard := none } t.rk = refCount s t.rk + 1 := hcountT
      rw [hc2, hgetd, ← hnc]
      rw [if_neg (by omega)]
    · show upd s.refs t.rk (some ((s.refs t.rk).getD 0 + 1)) k = _
      rw [upd_other _ _ _ _ hk]
      have hc2 : refCount { s with
          tasks := s.tasks.set i { t with pc := Pc.waitLock },
          refs := upd s.refs t.rk (some ((s.refs t.rk).getD 0 + 1)),
          guard := none } k = refCount s k := hcountK k hk
      rw [hc2]
      exact hs.refsEq k
  · intro k
    by_cases hk : k = t.rk
    · subst hk
      constructor
      · intro h2
        exact absurd h2 hlknn
      · intro h2
        have h3 : upd s.refs t.rk (some ((s.refs t.rk).getD 0 + 1)) t.rk
            = none := h2
        rw [upd_self] at h3
        cases h3
    · constructor
      · intro h2
        show upd s.refs t.rk (some ((s.refs t.rk).getD 0 + 1)) k = none
        rw [upd_other _ _ _ _ hk]
        exact (hs.locksRefs k).mp h2
      · intro h2
        have h3 : upd s.refs t.rk (some ((s.refs t.rk).getD 0 + 1)) k
            = none := h2
        rw [upd_other _ _ _ _ hk] at h3
        exact (hs.locksRefs k).mpr h3
  · intro j u hj hu
    by_cases hij : i = j
    · subst hij
      rw [get_set_self _ _ _ _ hget] at hj
      cases hj
      exact absurd hu Bool.false_ne_true
    · rw [get_set_other _ _ _ _ hij] at hj
      exact hs.holderFwd j u hj hu
  · intro k j hlk2
    obtain ⟨u, hu, hurk, huh⟩ := hs.holderBwd k j hlk2
    by_cases hij : i = j
    · subst hij
      rw [hget] at hu
      cases hu
      exact absurd (by rw [hpc] at huh; exact huh) Bool.false_ne_true
    · exact ⟨u, by rw [get_set_other _ _ _ _ hij]; exact hu, hurk, huh⟩
  · intro j hg
    cases hg

/-- Preservation for `acquireLock`: a waiting task takes the free per-key
lock and enters the critical section; the replay check runs in the same
atomic segment, so the task lands either in the handler body or directly
at the body's end (stale drop, or a raising sequence resolver). The
sequence table may change arbitrarily; the invariant does not mention
it. -/
theorem inv_acquireLock (s : Sys) (i : Nat) (t t2 : Task)
    (seen2 : RK → Option Int) (hs : Inv s)
    (hget : s.tasks.get? i = some t) (hpc : t.pc = Pc.waitLock)
    (hlk : s.locks t.rk = some none)
    (hrk : t2.rk = t.rk) (hhold2 : holderPc t2.pc = true)
    (hcnt2 : countedPc t2.pc = true) :
    Inv { s with tasks := s.tasks.set i t2,
                 locks := upd s.locks t.rk (some (some i)),
                 seen := seen2 } := by
  have hcount : ∀ k,
      countB (fun v => decide (v.rk = k) && countedPc v.pc)
        (s.tasks.set i t2) = refCount s k := by
    intro k
    apply countB_set_same _ _ _ _ _ hget
    show (decide (t.rk = k) && countedPc t.pc)
      = (decide (t2.rk = k) && countedPc t2.pc)
    rw [hrk, hpc, hcnt2]
    rfl
  refine ⟨?_, ?_, ?_, ?_, ?_⟩
  · intro k
    have hc2 : refCount { s with
        tasks := s.tasks.set i t2,
        locks := upd s.locks t.rk (some (some i)),
        seen := seen2 } k = refCount s k := hcount k
    rw [hc2]
    exact hs.refsEq k
  · intro k
    by_cases hk : k = t.rk
    · subst hk
      constructor
      · intro h2
        have h3 : upd s.locks t.rk (some (some i)) t.rk = none := h2
        rw [upd_self] at h3
        cases h3
      · intro h2
        exfalso
        have h3 := (hs.locksRefs t.rk).mpr h2
        rw [hlk] at h3
        cases h3
    · constructor
      · intro h2
        have h3 : upd s.locks t.rk (some (some i)) k = none := h2
        rw [upd_other _ _ _ _ hk] at h3
        exact (hs.locksRefs k).mp h3
      · intro h2
        show upd s.locks t.rk (some (some i)) k = none
        rw [upd_other _ _ _ _ hk]
        exact (hs.locksRefs k).mpr h2
  · intro j u hj hu
    by_cases hij : i = j
    · subst hij
      rw [get_set_self _ _ _ _ hget] at hj
      cases hj
      show upd s.locks t.rk (some (some i)) t2.rk = some (some i)
      rw [hrk, upd_self]
    · rw [get_set_other _ _ _ _ hij] at hj
      have hold := hs.holderFwd j u hj hu
      by_cases hurk : u.rk = t.rk
      · exfalso
        rw [hurk, hlk] at hold
        injection hold with h2
        cases h2
      · show upd s.locks t.rk (some (some i)) u.rk = some (some j)
        rw [upd_other _ _ _ _ hurk]
        exact hold
  · intro k j hlk2
    by_cases hk : k = t.rk
    · subst hk
      have h3 : upd s.locks t.rk (some (some i)) t.rk = some (some j) :=
        hlk2
      rw [upd_self] at h3
      injection h3 with h4
      injection h4 with h5
      subst h5
      exact ⟨t2, get_set_self _ _ _ _ hget, hrk, hhold2⟩
    · have h3 : upd s.locks t.rk (some (some i)) k = some (some j) := hlk2
      rw [upd_other _ _ _ _ hk] at h3
      obtain ⟨u, hu, hurk, huh⟩ := hs.holderBwd k j h3
      by_cases hij : i = j
      · subst hij
        rw [hget] at hu
        cases hu
        exact absurd (by rw [hpc] at huh; exact huh) Bool.false_ne_true
      · exact ⟨u, by rw [get_set_other _ _ _ _ hij]; exact hu, hurk, huh⟩
  · intro j hg
    obtain ⟨u, hu, hupc⟩ := hs.guardFwd j hg
    by_cases hij : i = j
    · subst hij
      rw [hget] at hu
      cases hu
      exfalso
      rw [hpc] at hupc
      cases hupc with
      | inl h1 => cases h1
      | inr h1 => cases h1
    · exact ⟨u, by rw [get_set_other _ _ _ _ hij]; exact hu, hupc⟩

/-- Preservation for `exitGuardRel`, eviction case: the refcount drops to
zero, so `__aexit__` deletes both table entries. -/
theorem inv_exitGuardRel_del (s : Sys) (i : Nat) (t : Task) (n : Nat)
    (hs : Inv s) (hget : s.tasks.get? i = some t)
    (hpc : t.pc = Pc.holdGuardExit) (hrefs : s.refs t.rk = some n)
    (h0 : n - 1 = 0) :
    Inv { s with tasks := s.tasks.set i { t with pc := Pc.done },
                 locks := upd s.locks t.rk none,
                 refs := upd s.refs t.rk none,
                 guard := none } := by
  obtain ⟨hnc, hc0⟩ := count_of_refs_some s hs t.rk n hrefs
  have hn1 : n = 1 := by omega
  have hcountK : ∀ k, k ≠ t.rk →
      countB (fun v => decide (v.rk = k) && countedPc v.pc)
        (s.tasks.set i { t with pc := Pc.done }) = refCount s k := by
    intro k hk
    apply countB_set_same _ _ _ _ _ hget
    have hd : decide (t.rk = k) = false := by
      simp only [decide_eq_false_iff_not]
      intro h2
      exact hk h2.symm
    show (decide (t.rk = k) && countedPc t.pc)
      = (decide (t.rk = k) && countedPc Pc.done)
    rw [hd]
    rfl
  have hcountT : refCount s t.rk =
      countB (fun v => decide (v.rk = t.rk) && countedPc v.pc)
        (s.tasks.set i { t with pc := Pc.done }) + 1 := by
    apply countB_set_decr _ _ _ _ _ hget
    · rw [hpc]
      show (decide (t.rk = t.rk) && countedPc Pc.holdGuardExit) = true
      rw [decide_eq_true rfl]
      rfl
    · show (decide (t.rk = t.rk) && false) = false
      rw [Bool.and_false]
  have hcountT0 :
      countB (fun v => decide (v.rk = t.rk) && countedPc v.pc)
        (s.tasks.set i { t with pc := Pc.done }) = 0 := by
    omega
  refine ⟨?_, ?_, ?_, ?_, ?_⟩
  · intro k
    by_cases hk : k = t.rk
    · subst hk
      show upd s.refs t.rk none t.rk = _
      rw [upd_self]
      have hc2 : refCount { s with
          tasks := s.tasks.set i { t with pc := Pc.done },
          locks := upd s.locks t.rk none,
          refs := upd s.refs t.rk none, guard := none } t.rk = 0 :=
        hcountT0
      rw [hc2]
      rfl
    · show upd s.refs t.rk none k = _
      rw [upd_other _ _ _ _ hk]
      have hc2 : refCount { s with
          tasks := s.tasks.set i { t with pc := Pc.done },
          locks := upd s.locks t.rk none,
          refs := upd s.refs t.rk none, guard := none } k
          = refCount s k := hcountK k hk
      rw [hc2]
      exact hs.refsEq k
  · intro k
    by_cases hk : k = t.rk
    · subst hk
      constructor
      · intro _
        show upd s.refs t.rk none t.rk = none
        rw [upd_self]
      · intro _
        show upd s.locks t.rk none t.rk = none
        rw [upd_self]
    · constructor
      · intro h2
        have h3 : upd s.locks t.rk none k = none := h2
        rw [upd_other _ _ _ _ hk] at h3
        show upd s.refs t.rk none k = none
        rw [upd_other _ _ _ _ hk]
        exact (hs.locksRefs k).mp h3
      · intro h2
        have h3 : upd s.refs t.rk none k = none := h2
        rw [upd_other _ _ _ _ hk] at h3
        show upd s.locks t.rk none k = none
        rw [upd_other _ _ _ _ hk]
        exact (hs.locksRefs k).mpr h3
  · intro j u hj hu
    by_cases hij : i = j
    · subst hij
      rw [get_set_self _ _ _ _ hget] at hj
      cases hj
      exact absurd hu Bool.false_ne_true
    · rw [get_set_other _ _ _ _ hij] at hj
      have hold := hs.holderFwd j u hj hu
      by_cases hurk : u.rk = t.rk
      · exfalso
        have hcnt_u : (fun v => decide (v.rk = t.rk) && countedPc v.pc) u
            = true := by
          show (decide (u.rk = t.rk) && countedPc u.pc) = true
          rw [decide_eq_true hurk]
          cases hbu : u.pc <;> first
            | rfl
            | (exfalso
               rw [hbu] at hu
               exact Bool.false_ne_true hu)
        have hcnt_t : (fun v => decide (v.rk = t.rk) && countedPc v.pc) t
            = true := by
          show (decide (t.rk = t.rk) && countedPc t.pc) = true
          rw [decide_eq_true rfl, hpc]
          rfl
        have h2 := two_le_countB
          (fun v => decide (v.rk = t.rk) && countedPc v.pc)
          s.tasks i j t u hij hget hj hcnt_t hcnt_u
        have h3 : refCount s t.rk = n := hnc.symm
        have h4 : 2 ≤ refCount s t.rk := h2
        omega
      · show upd s.locks t.rk none u.rk = some (some j)
        rw [upd_other _ _ _ _ hurk]
        exact hold
  · intro k j hlk2
    by_cases hk : k = t.rk
    · subst hk
      exfalso
      have h3 : upd s.locks t.rk none t.rk = some (some j) := hlk2
      rw [upd_self] at h3
      cases h3
    · have h3 : upd s.locks t.rk none k = some (some j) := hlk2
      rw [upd_other _ _ _ _ hk] at h3
      obtain ⟨u, hu, hurk, huh⟩ := hs.holderBwd k j h3
      by_cases hij : i = j
      · subst hij
        rw [hget] at hu
        cases hu
        exact absurd (by rw [hpc] at huh; exact huh) Bool.false_ne_true
      · exact ⟨u, by rw [get_set_other _ _ _ _ hij]; exact hu, hurk, huh⟩
  · intro j hg
    cases hg

/-- Preservation for `exitGuardRel`, decrement case: the refcount stays
positive, so only `mutex._refs[key]` is updated. -/
theorem inv_exitGuardRel_keep (s : Sys) (i : Nat) (t : Task) (n : Nat)
    (hs : Inv s) (hget : s.tasks.get? i = some t)
    (hpc : t.pc = Pc.holdGuardExit) (hrefs : s.refs t.rk = some n)
    (h0 : ¬ n - 1 = 0) :
    Inv { s with tasks := s.tasks.set i { t with pc := Pc.done },
                 refs := upd s.refs t.rk (some (n - 1)),
                 guard := none } := by
  obtain ⟨hnc, hc0⟩ := count_of_refs_some s hs t.rk n hrefs
  have hcountK : ∀ k, k ≠ t.rk →
      countB (fun v => decide (v.rk = k) && countedPc v.pc)
        (s.tasks.set i { t with pc := Pc.done }) = refCount s k := by
    intro k hk
    apply countB_set_same _ _ _ _ _ hget
    have hd : decide (t.rk = k) = false := by
      simp only [decide_eq_false_iff_not]
      intro h2
      exact hk h2.symm
    show (decide (t.rk = k) && countedPc t.pc)
      = (decide (t.rk = k) && countedPc Pc.done)
    rw [hd]
    rfl
  have hcountT : refCount s t.rk =
      countB (fun v => decide (v.rk = t.rk) && countedPc v.pc)
        (s.tasks.set i { t with pc := Pc.done }) + 1 := by
    apply countB_set_decr _ _ _ _ _ hget
    · rw [hpc]
      show (decide (t.rk = t.rk) && countedPc Pc.holdGuardExit) = true
      rw [decide_eq_true rfl]
      rfl
    · show (decide (t.rk = t.rk) && false) = false
      rw [Bool.and_false]
  refine ⟨?_, ?_, ?_, ?_, ?_⟩
  · intro k
    by_cases hk : k = t.rk
    · subst hk
      show upd s.refs t.rk (some (n - 1)) t.rk = _
      rw [upd_self]
      have hc2 : refCount { s with
          tasks := s.tasks.set i { t with pc := Pc.done },
          refs := upd s.refs t.rk (some (n - 1)), guard := none } t.rk
          = n - 1 := by
        show countB _ (s.tasks.set i { t with pc := Pc.done }) = n - 1
        omega
      rw [hc2]
      rw [if_neg h0]
    · show upd s.refs t.rk (some (n - 1)) k = _
      rw [upd_other _ _ _ _ hk]
      have hc2 : refCount { s with
          tasks := s.tasks.set i { t with pc := Pc.done },
          refs := upd s.refs t.rk (some (n - 1)), guard := none } k
          = refCount s k := hcountK k hk
      rw [hc2]
      exact hs.refsEq k
  · intro k
    by_cases hk : k = t.rk
    · subst hk
      constructor
      · intro h2
        exfalso
        have h3 := (hs.locksRefs t.rk).mp h2
        rw [hrefs] at h3
        cases h3
      · intro h2
        have h3 : upd s.refs t.rk (some (n - 1)) t.rk = none := h2
        rw [upd_self] at h3
        cases h3
    · constructor
      · intro h2
        show upd s.refs t.rk (some (n - 1)) k = none
        rw [upd_other _ _ _ _ hk]
        exact (hs.locksRefs k).mp h2
      · intro h2
        have h3 : upd s.refs t.rk (some (n - 1)) k = none := h2
        rw [upd_other _ _ _ _ hk] at h3
        exact (hs.locksRefs k).mpr h3
  · intro j u hj hu
    by_cases hij : i = j
    · subst hij
      rw [get_set_self _ _ _ _ hget] at hj
      cases hj
      exact absurd hu Bool.false_ne_true
    · rw [get_set_other _ _ _ _ hij] at hj
      exact hs.holderFwd j u hj hu
  · intro k j hlk2
    obtain ⟨u, hu, hurk, huh⟩ := hs.holderBwd k j hlk2
    by_cases hij : i = j
    · subst hij
      rw [hget] at hu
      cases hu
      exact absurd (by rw [hpc] at huh; exact huh) Bool.false_ne_true
    · exact ⟨u, by rw [get_set_other _ _ _ _ hij]; exact hu, hurk, huh⟩
  · intro j hg
    cases hg

/-- Every enabled step preserves the invariant. -/
theorem inv_step (s : Sys) (e : Ev) (s2 : Sys) (hs : Inv s)
    (h : step s e = some s2) : Inv s2 := by
  cases e with
  | enterGuardAcq i =>
    simp only [step] at h
    split at h
    · cases h
    · rename_i t hget
      split at h
      · rename_i hc
        injection h with h2
        subst h2
        exact inv_guard_acquire s i t Pc.holdGuardEnter hs hget
          (by rw [hc.1]; rfl) (by rw [hc.1]; rfl) rfl (Or.inl rfl)
      · cases h
  | enterGuardRel i =>
    simp only [step] at h
    split at h
    · cases h
    · rename_i t hget
      split at h
      · rename_i hc
        split at h
        · rename_i hlk
          injection h with h2
          subst h2
          exact inv_enterGuardRel_new s i t hs hget hc.1 hlk
        · rename_i w hlk
          injection h with h2
          subst h2
          exact inv_enterGuardRel_old s i t hs hget hc.1 w hlk
      · cases h
  | acquireLock i =>
    simp only [step] at h
    split at h
    · cases h
    · rename_i t hget
      split at h
      · rename_i hc
        split at h
        · rename_i e hsx
          injection h with h2
          subst h2
          exact inv_acquireLock s i t _ s.seen hs hget hc.1 hc.2
            rfl rfl rfl
        · rename_i sv hsx
          split at h
          · rename_i seen2 hchk
            injection h with h2
            subst h2
            exact inv_acquireLock s i t _ s.seen hs hget hc.1 hc.2
              rfl rfl rfl
          · rename_i seen2 hchk
            injection h with h2
            subst h2
            exact inv_acquireLock s i t _ seen2 hs hget hc.1 hc.2
              rfl rfl rfl
      · cases h
  | cancelWait i =>
    simp only [step] at h
    split at h
    · cases h
    · rename_i t hget
      split at h
      · rename_i hc
        split at h
        · rename_i j hlk
          injection h with h2
          subst h2
          apply inv_tasks_update s i t { t with pc := Pc.cancelled }
            hs hget rfl (by rw [hc]; rfl) (by rw [hc]; rfl)
          constructor
          · intro h3
            rcases h3 with h3 | h3
            · cases (show Pc.cancelled = Pc.holdGuardEnter from h3)
            · cases (show Pc.cancelled = Pc.holdGuardExit from h3)
          · intro h3
            rw [hc] at h3
            rcases h3 with h3 | h3
            · cases h3
            · cases h3
        · cases h
      · cases h
  | finishBody i =>
    simp only [step] at h
    split at h
    · cases h
    · rename_i t hget
      split at h
      · rename_i hc
        split at h
        · rename_i v hhr
          injection h with h2
          subst h2
          apply inv_tasks_update s i t
            { t with pc := Pc.doneBody, outcome := some (Outcome.ret v) }
            hs hget rfl (by rw [hc]; rfl) (by rw [hc]; rfl)
          constructor
          · intro h3
            rcases h3 with h3 | h3
            · cases (show Pc.doneBody = Pc.holdGuardEnter from h3)
            · cases (show Pc.doneBody = Pc.holdGuardExit from h3)
          · intro h3
            rw [hc] at h3
            rcases h3 with h3 | h3
            · cases h3
            · cases h3
        · rename_i e hhr
          injection h with h2
          subst h2
          apply inv_tasks_update s i t
            { t with pc := Pc.doneBody,
                     outcome := some (Outcome.raised e) }
            hs hget rfl (by rw [hc]; rfl) (by rw [hc]; rfl)
          constructor
          · intro h3
            rcases h3 with h3 | h3
            · cases (show Pc.doneBody = Pc.holdGuardEnter from h3)
            · cases (show Pc.doneBody = Pc.holdGuardExit from h3)
          · intro h3
            rw [hc] at h3
            rcases h3 with h3 | h3
            · cases h3
            · cases h3
      · cases h
  | releaseLock i =>
    simp only [step] at h
    split at h
    · cases h
    · rename_i t hget
      split at h
      · rename_i hc
        injection h with h2
        subst h2
        exact inv_releaseLock s i t hs hget hc
      · cases h
  | exitGuardAcq i =>
    simp only [step] at h
    split at h
    · cases h
    · rename_i t hget
      split at h
      · rename_i hc
        injection h with h2
        subst h2
        exact inv_guard_acquire s i t Pc.holdGuardExit hs hget
          (by rw [hc.1]; rfl) (by rw [hc.1]; rfl) rfl (Or.inr rfl)
      · cases h
  | exitGuardRel i =>
    simp only [step] at h
    split at h
    · cases h
    · rename_i t hget
      split at h
      · rename_i hc
        split at h
        · cases h
        · rename_i n hr
          split at h
          · rename_i h0
            injection h with h2
            subst h2
            exact inv_exitGuardRel_del s i t n hs hget hc.1 hr h0
          · rename_i h0
            injection h with h2
            subst h2
            exact inv_exitGuardRel_keep s i t n hs hget hc.1 hr h0
      · cases h

/-- Every state reached by running a schedule from an invariant state
satisfies the invariant. -/
theorem inv_run : ∀ (evs : List Ev) (s s2 : Sys),
    Inv s → run s evs = some s2 → Inv s2 := by
  intro evs
  induction evs with
  | nil =>
    intro s s2 hs h
    simp only [run] at h
    injection h with h2
    subst h2
    exact hs
  | cons e es ih =>
    intro s s2 hs h
    simp only [run] at h
    cases hst : step s e with
    | none => rw [hst] at h; cases h
    | some s3 =>
      rw [hst] at h
      exact ih s3 s2 (inv_step s e s3 hs hst) h

/-- C2: the replay check. With no configured sequence (`seq_by` absent,
so `_seq` resolves to `None`) the message is accepted and the table is
untouched; with a sequence and no recorded last value, or a value
strictly below the new sequence, the new sequence is recorded and the
message accepted; with a sequence at most the recorded last value the
message is rejected and the table unchanged
(agent.py lines 125-131 and 161-166). -/
theorem C2_replay_check_behavior :
    (∀ p seen rk, seqCheck rk (resolveSeq SeqBy.nul p) seen = (true, seen))
    ∧ (∀ rk sv seen, seen rk = none →
        seqCheck rk (some sv) seen = (true, upd seen rk (some sv)))
    ∧ (∀ rk sv last seen, seen rk = some last → last < sv →
        seqCheck rk (some sv) seen = (true, upd seen rk (some sv)))
    ∧ (∀ rk sv last seen, seen rk = some last → sv ≤ last →
        seqCheck rk (some sv) seen = (false, seen)) := by
  refine ⟨fun p seen rk => rfl, ?_, ?_, ?_⟩
  · intro rk sv seen h
    simp only [seqCheck, h]
  · intro rk sv last seen h hlt
    simp only [seqCheck, h, if_neg (not_le.mpr hlt)]
  · intro rk sv last seen h hle
    simp only [seqCheck, h, if_pos hle]

/-- C2 witness: the four behaviours at concrete tables and sequences. -/
theorem C2_replay_check_behavior_witness :
    seqCheck rkA (resolveSeq SeqBy.nul (fun _ => 0)) seenC2a = (true, seenC2a)
    ∧ seenEmpty rkA = none
    ∧ seqCheck rkA (some 5) seenEmpty = (true, upd seenEmpty rkA (some 5))
    ∧ seenC2a rkA = some 7
    ∧ ((7 : Int) < 9)
    ∧ seqCheck rkA (some 9) seenC2a = (true, upd seenC2a rkA (some 9))
    ∧ ((5 : Int) ≤ 7)
    ∧ seqCheck rkA (some 5) seenC2a = (false, seenC2a) :=
  ⟨C2_replay_check_behavior.1 (fun _ => 0) seenC2a rkA,
   rfl,
   C2_replay_check_behavior.2.1 rkA 5 seenEmpty rfl,
   by decide,
   by decide,
   C2_replay_check_behavior.2.2.1 rkA 9 7 seenC2a (by decide) (by decide),
   by decide,
   C2_replay_check_behavior.2.2.2 rkA 5 7 seenC2a (by decide) (by decide)⟩

/-- C6: a rejected message (sequence not strictly greater than the last
recorded one) makes `wrapped` return `None` — a no-op outcome, not an
exception — without invoking the user handler (the result is the same
for every handler behaviour `h`) and without touching the sequence table
(agent.py lines 161-167). -/
theorem C6_stale_drop_is_noop :
    ∀ rk sv last seen (h : HRes), seen rk = some last → sv ≤ last →
      wrappedBody rk (SeqX.sval (some sv)) h seen
        = (false, Outcome.ret none, seen) := by
  intro rk sv last seen h hseen hle
  simp only [wrappedBody, seqCheck, hseen, if_pos hle]

/-- C6 witness: a stale delivery (5 after 7) is dropped identically for a
returning handler and for a raising handler. -/
theorem C6_stale_drop_is_noop_witness :
    seenC2a rkA = some 7
    ∧ ((5 : Int) ≤ 7)
    ∧ wrappedBody rkA (SeqX.sval (some 5)) (HRes.hok (some 9)) seenC2a
        = (false, Outcome.ret none, seenC2a)
    ∧ wrappedBody rkA (SeqX.sval (some 5)) (HRes.herr "x") seenC2a
        = (false, Outcome.ret none, seenC2a) :=
  ⟨by decide, by decide,
   C6_stale_drop_is_noop rkA 5 7 seenC2a (HRes.hok (some 9)) (by decide)
     (by decide),
   C6_stale_drop_is_noop rkA 5 7 seenC2a (HRes.herr "x") (by decide)
     (by decide)⟩

/-- C9: registration validation fails before any message is processed:
calling `keyed_receive` with `key_by` absent raises (a `ValueError`), and
applying the decorator to a non-coroutine handler raises (a `TypeError`);
in both cases the DNA log and the scheduled-registration list — through
which alone a receiver could ever be registered — are left unchanged
(agent.py lines 116-117 and 133-135). -/
theorem C9_registration_validation :
    ∀ fnName isAsync st,
      keyedReceiveRegister none fnName isAsync st
        = (st, some RegError.missingKeyBy)
      ∧ ∀ kb, keyedReceiveRegister (some kb) fnName false st
        = (st, some RegError.notAsync) :=
  fun _ _ _ => ⟨rfl, fun _ => rfl⟩

/-- C10: when an in-sequence message is accepted, the sequence is written
to `_seq_seen` before the handler runs; if the handler then raises, the
sequence stays recorded, so redelivering the same payload is dropped as
stale — for any handler behaviour — instead of retrying
(agent.py lines 161-167). -/
theorem C10_seq_recorded_before_handler :
    ∀ rk sv seen e, (seqCheck rk (some sv) seen).1 = true →
      (seqCheck rk (some sv) seen).2 = upd seen rk (some sv)
      ∧ wrappedBody rk (SeqX.sval (some sv)) (HRes.herr e) seen
          = (true, Outcome.raised e, upd seen rk (some sv))
      ∧ upd seen rk (some sv) rk = some sv
      ∧ ∀ h2, wrappedBody rk (SeqX.sval (some sv)) h2 (upd seen rk (some sv))
          = (false, Outcome.ret none, upd seen rk (some sv)) := by
  intro rk sv seen e hacc
  have hch : seqCheck rk (some sv) seen = (true, upd seen rk (some sv)) := by
    cases hsee : seen rk with
    | none => simp only [seqCheck, hsee]
    | some last =>
      by_cases hle : sv ≤ last
      · exfalso
        simp only [seqCheck, hsee, if_pos hle] at hacc
        exact Bool.false_ne_true hacc
      · simp only [seqCheck, hsee, if_neg hle]
  have hupd : upd seen rk (some sv) rk = some sv := by
    simp [upd]
  refine ⟨by rw [hch], ?_, hupd, ?_⟩
  · simp only [wrappedBody, hch]
  · intro h2
    simp only [wrappedBody, seqCheck, hupd, if_pos (le_refl sv)]

/-- C10 witness: sequence 8 accepted into the empty table, handler
raises, the table still records 8, and redelivery of sequence 8 is
dropped for a returning handler and for a raising handler alike. -/
theorem C10_seq_recorded_before_handler_witness :
    (seqCheck rkA (some 8) seenEmpty).1 = true
    ∧ wrappedBody rkA (SeqX.sval (some 8)) (HRes.herr "boom") seenEmpty
        = (true, Outcome.raised "boom", upd seenEmpty rkA (some 8))
    ∧ upd seenEmpty rkA (some 8) rkA = some 8
    ∧ wrappedBody rkA (SeqX.sval (some 8)) (HRes.hok none)
        (upd seenEmpty rkA (some 8))
        = (false, Outcome.ret none, upd seenEmpty rkA (some 8))
    ∧ wrappedBody rkA (SeqX.sval (some 8)) (HRes.herr "again")
        (upd seenEmpty rkA (some 8))
        = (false, Outcome.ret none, upd seenEmpty rkA (some 8)) :=
  ⟨by decide,
   (C10_seq_recorded_before_handler rkA 8 seenEmpty "boom" (by decide)).2.1,
   (C10_seq_recorded_before_handler rkA 8 seenEmpty "boom" (by decide)).2.2.1,
   (C10_seq_recorded_before_handler rkA 8 seenEmpty "boom"
     (by decide)).2.2.2 (HRes.hok none),
   (C10_seq_recorded_before_handler rkA 8 seenEmpty "boom"
     (by decide)).2.2.2 (HRes.herr "again")⟩

/-- C1: per-key mutual exclusion. In every state reachable by any
schedule from any initial set of invocations, at most one task is inside
any key's critical section (holding the per-(route,key) lock across the
sequence check and the handler body); hence two `wrapped` invocations
with the same (route, key) never overlap. -/
theorem C1_per_key_mutual_exclusion (sps : List TaskSpec)
    (evs : List Ev) (s : Sys) (h : run (initSys sps) evs = some s) :
    ∀ k, critCount s k ≤ 1 := by
  have hinv := inv_run evs (initSys sps) s (inv_init sps) h
  intro k
  apply countB_le_one
  intro i j a b hia hjb hpa hpb
  have h1 : (decide (a.rk = k) && holderPc a.pc) = true := hpa
  have h2 : (decide (b.rk = k) && holderPc b.pc) = true := hpb
  simp only [Bool.and_eq_true] at h1 h2
  obtain ⟨h1a, h1b⟩ := h1
  obtain ⟨h2a, h2b⟩ := h2
  have hla := hinv.holderFwd i a hia h1b
  have hlb := hinv.holderFwd j b hjb h2b
  rw [of_decide_eq_true h1a] at hla
  rw [of_decide_eq_true h2a] at hlb
  have h3 := hla.symm.trans hlb
  injection h3 with h4
  injection h4

/-- C1 witness: with task 0 inside the critical section of ("r","a") and
task 1 waiting on the same key, exactly one task is in the critical
section. -/
theorem C1_per_key_mutual_exclusion_witness :
    run (initSys specsTwo) evsC1w = some sysC1w
    ∧ critCount sysC1w rkA ≤ 1
    ∧ critCount sysC1w rkA = 1 :=
  ⟨rfl, C1_per_key_mutual_exclusion specsTwo evsC1w sysC1w rfl rkA, rfl⟩

/-- C4: lock-table lifecycle. In every reachable state: a refcount entry
is absent exactly when no task holds, awaits (or has abandoned a
cancelled wait for) the key's lock; a stored refcount is never 0 (the
entry is deleted exactly when the decrement reaches 0); the lock table
and refcount table have entries for the same keys; and once every
invocation has completed, both tables are empty — the table returns to
its pre-use state. -/
theorem C4_lock_table_lifecycle (sps : List TaskSpec) (evs : List Ev)
    (s : Sys) (h : run (initSys sps) evs = some s) :
    (∀ k, (s.refs k = none ↔ refCount s k = 0)
      ∧ (s.locks k = none ↔ s.refs k = none)
      ∧ s.refs k ≠ some 0)
    ∧ (tasksDone s.tasks = true →
        ∀ k, s.locks k = none ∧ s.refs k = none) := by
  have hinv := inv_run evs (initSys sps) s (inv_init sps) h
  constructor
  · intro k
    refine ⟨⟨fun h2 => count_zero_of_refs_none s hinv k h2, ?_⟩,
      hinv.locksRefs k, ?_⟩
    · intro h2
      rw [hinv.refsEq k, if_pos h2]
    · intro h2
      obtain ⟨hnc, hc0⟩ := count_of_refs_some s hinv k 0 h2
      exact hc0 hnc.symm
  · intro hdone k
    have hcnt : refCount s k = 0 := by
      apply countB_eq_zero
      intro t ht
      have hpc := tasksDone_spec s.tasks hdone t ht
      show (decide (t.rk = k) && countedPc t.pc) = false
      rw [hpc]
      exact Bool.and_false _
    have hrefs : s.refs k = none := by
      rw [hinv.refsEq k, if_pos hcnt]
    exact ⟨(hinv.locksRefs k).mpr hrefs, hrefs⟩

/-- C4 witness: after two invocations for ("r","a") run to completion,
both tables are empty at that key again. -/
theorem C4_lock_table_lifecycle_witness :
    run (initSys specsTwo) evsC4w = some sysC4w
    ∧ tasksDone sysC4w.tasks = true
    ∧ sysC4w.locks rkA = none
    ∧ sysC4w.refs rkA = none :=
  ⟨rfl, rfl,
   ((C4_lock_table_lifecycle specsTwo evsC4w sysC4w rfl).2 rfl rkA).1,
   ((C4_lock_table_lifecycle specsTwo evsC4w sysC4w rfl).2 rfl rkA).2⟩

/-- C8: guard discipline. In every reachable state, the table guard's
holder is inside one of the two bounded bookkeeping segments (entry
creation in `__aenter__` or decrement/evict in `__aexit__`): it is never
a task suspended waiting for a per-key mutex and never a task executing
protected user code inside a critical section. The guard is released
before the `await lock.acquire()` suspension, so contention on one key
cannot serialize acquisition for unrelated keys. -/
theorem C8_guard_discipline (sps : List TaskSpec) (evs : List Ev)
    (s : Sys) (h : run (initSys sps) evs = some s) :
    ∀ i t, s.guard = some i → s.tasks.get? i = some t →
      (t.pc = Pc.holdGuardEnter ∨ t.pc = Pc.holdGuardExit)
      ∧ t.pc ≠ Pc.waitLock ∧ holderPc t.pc = false := by
  have hinv := inv_run evs (initSys sps) s (inv_init sps) h
  intro i t hg hget
  obtain ⟨u, hu, hupc⟩ := hinv.guardFwd i hg
  rw [hget] at hu
  injection hu with hu2
  subst hu2
  refine ⟨hupc, ?_, ?_⟩
  · intro h2
    rw [h2] at hupc
    rcases hupc with h3 | h3
    · cases h3
    · cases h3
  · rcases hupc with h3 | h3
    · rw [h3]
      rfl
    · rw [h3]
      rfl

/-- C8 witness: with the guard held by task 0 during entry bookkeeping,
task 0 is in the guard-held entry segment — not waiting on a lock and
not in a critical section. -/
theorem C8_guard_discipline_witness :
    run (initSys specsC7) evsC8w = some sysC8w
    ∧ sysC8w.guard = some 0
    ∧ sysC8w.tasks.get? 0 = some tC8
    ∧ (tC8.pc = Pc.holdGuardEnter ∨ tC8.pc = Pc.holdGuardExit)
    ∧ tC8.pc ≠ Pc.waitLock ∧ holderPc tC8.pc = false :=
  ⟨rfl, rfl, rfl,
   (C8_guard_discipline specsC7 evsC8w sysC8w rfl 0 tC8 rfl rfl).1,
   (C8_guard_discipline specsC7 evsC8w sysC8w rfl 0 tC8 rfl rfl).2.1,
   (C8_guard_discipline specsC7 evsC8w sysC8w rfl 0 tC8 rfl rfl).2.2⟩

/-- The replay check never touches other keys' recorded sequences. -/
theorem seqCheck_other (rk k : RK) (sv : Option Int)
    (seen : RK → Option Int) (hk : k ≠ rk) :
    (seqCheck rk sv seen).2 k = seen k := by
  cases sv with
  | none => rfl
  | some v =>
    cases hsee : seen rk with
    | none =>
      have h1 : seqCheck rk (some v) seen = (true, upd seen rk (some v)) := by
        simp only [seqCheck, hsee]
      rw [h1]
      exact upd_other _ _ _ _ hk
    | some last =>
      by_cases hle : v ≤ last
      · have h1 : seqCheck rk (some v) seen = (false, seen) := by
          simp only [seqCheck, hsee, if_pos hle]
        rw [h1]
      · have h1 : seqCheck rk (some v) seen
            = (true, upd seen rk (some v)) := by
          simp only [seqCheck, hsee, if_neg hle]
        rw [h1]
        exact upd_other _ _ _ _ hk

/-- Running the three-segment `__aexit__` path of a task whose body has
finished always succeeds when the guard is free, ends the task at `done`
with its outcome intact, and leaves the key's lock either free or
evicted; the per-key release happens in the first segment, before the
guard is re-taken for refcount bookkeeping. -/
theorem exit_path_spec (s : Sys) (i : Nat) (t : Task) (n : Nat)
    (hget : s.tasks.get? i = some t) (hpc : t.pc = Pc.doneBody)
    (hguard : s.guard = none) (hrefs : s.refs t.rk = some n) :
    ∃ s3, run s [Ev.releaseLock i, Ev.exitGuardAcq i, Ev.exitGuardRel i]
        = some s3
      ∧ s3.tasks.get? i = some { t with pc := Pc.done }
      ∧ (s3.locks t.rk = none ∨ s3.locks t.rk = some none)
      ∧ s3.guard = none := by
  have h1 : step s (Ev.releaseLock i)
      = some { s with tasks := s.tasks.set i { t with pc := Pc.released },
                      locks := upd s.locks t.rk (some none) } := by
    simp only [step, hget]
    rw [if_pos hpc]
  have hgetB : (s.tasks.set i { t with pc := Pc.released }).get? i
      = some { t with pc := Pc.released } := get_set_self _ _ _ _ hget
  have h2 : step { s with
        tasks := s.tasks.set i { t with pc := Pc.released },
        locks := upd s.locks t.rk (some none) } (Ev.exitGuardAcq i)
      = some { s with
        tasks := (s.tasks.set i { t with pc := Pc.released }).set i
          { t with pc := Pc.holdGuardExit },
        locks := upd s.locks t.rk (some none),
        guard := some i } := by
    simp only [step, hgetB]
    rw [if_pos ⟨trivial, hguard⟩]
  have hgetC : ((s.tasks.set i { t with pc := Pc.released }).set i
        { t with pc := Pc.holdGuardExit }).get? i
      = some { t with pc := Pc.holdGuardExit } :=
    get_set_self _ _ _ _ hgetB
  by_cases h0 : n - 1 = 0
  · have h3 : step { s with
        tasks := (s.tasks.set i { t with pc := Pc.released }).set i
          { t with pc := Pc.holdGuardExit },
        locks := upd s.locks t.rk (some none),
        guard := some i } (Ev.exitGuardRel i)
        = some { s with
          tasks := (((s.tasks.set i { t with pc := Pc.released }).set i
            { t with pc := Pc.holdGuardExit }).set i
              { t with pc := Pc.done }),
          locks := upd (upd s.locks t.rk (some none)) t.rk none,
          refs := upd s.refs t.rk none,
          guard := none } := by
      simp only [step, hgetC, hrefs]
      rw [if_pos ⟨trivial, trivial⟩, if_pos h0]
    refine ⟨{ s with
        tasks := ((s.tasks.set i { t with pc := Pc.released }).set i
          { t with pc := Pc.holdGuardExit }).set i { t with pc := Pc.done },
        locks := upd (upd s.locks t.rk (some none)) t.rk none,
        refs := upd s.refs t.rk none,
        guard := none }, ?_, ?_, ?_, ?_⟩
    · simp only [run, h1, h2, h3]
    · exact get_set_self _ _ _ _ hgetC
    · left
      exact upd_self _ _ _
    · rfl
  · have h3 : step { s with
        tasks := (s.tasks.set i { t with pc := Pc.released }).set i
          { t with pc := Pc.holdGuardExit },
        locks := upd s.locks t.rk (some none),
        guard := some i } (Ev.exitGuardRel i)
        = some { s with
          tasks := (((s.tasks.set i { t with pc := Pc.released }).set i
            { t with pc := Pc.holdGuardExit }).set i
              { t with pc := Pc.done }),
          locks := upd s.locks t.rk (some none),
          refs := upd s.refs t.rk (some (n - 1)),
          guard := none } := by
      simp only [step, hgetC, hrefs]
      rw [if_pos ⟨trivial, trivial⟩, if_neg h0]
    refine ⟨{ s with
        tasks := ((s.tasks.set i { t with pc := Pc.released }).set i
          { t with pc := Pc.holdGuardExit }).set i { t with pc := Pc.done },
        locks := upd s.locks t.rk (some none),
        refs := upd s.refs t.rk (some (n - 1)),
        guard := none }, ?_, ?_, ?_, ?_⟩
    · simp only [run, h1, h2, h3]
    · exact get_set_self _ _ _ _ hgetC
    · right
      exact upd_self _ _ _
    · rfl

/-- C5: release on every exit path. In every reachable state: (1) a task
past the `_lock.release()` statement of `__aexit__` — including one whose
body ended in an exception, a stale drop, or a normal return — never
holds its key's lock, so the refcount bookkeeping and the delivery of
the outcome (a propagated handler error included) happen after the lock
is released; (2) from any task whose body has just finished (on any of
the three exit paths recorded in its outcome), the unconditional
`__aexit__` sequence — release the per-key lock first, then the guarded
refcount bookkeeping — runs to completion whenever the guard is free;
(3) it ends the task at `done`, its outcome unchanged, with the lock no
longer attributed to it and the guard released. -/
theorem C5_release_on_every_exit_path (sps : List TaskSpec)
    (evs : List Ev) (s : Sys) (h : run (initSys sps) evs = some s) :
    (∀ i t, s.tasks.get? i = some t →
      (t.pc = Pc.released ∨ t.pc = Pc.holdGuardExit ∨ t.pc = Pc.done) →
      s.locks t.rk ≠ some (some i))
    ∧ (∀ i t, s.tasks.get? i = some t → t.pc = Pc.doneBody →
        s.guard = none →
        (run s [Ev.releaseLock i, Ev.exitGuardAcq i,
          Ev.exitGuardRel i]).isSome = true)
    ∧ (∀ i t s3, s.tasks.get? i = some t → t.pc = Pc.doneBody →
        s.guard = none →
        run s [Ev.releaseLock i, Ev.exitGuardAcq i, Ev.exitGuardRel i]
          = some s3 →
        s3.tasks.get? i = some { t with pc := Pc.done }
        ∧ s3.locks t.rk ≠ some (some i) ∧ s3.guard = none) := by
  have hinv := inv_run evs (initSys sps) s (inv_init sps) h
  have hrefs_of_doneBody : ∀ i t, s.tasks.get? i = some t →
      t.pc = Pc.doneBody → ∃ n, s.refs t.rk = some n := by
    intro i t hget hpc
    have hc1 : 1 ≤ refCount s t.rk := by
      apply one_le_countB _ _ t (mem_of_get _ _ _ hget)
      show (decide (t.rk = t.rk) && countedPc t.pc) = true
      rw [decide_eq_true rfl, hpc]
      rfl
    have hne : refCount s t.rk ≠ 0 := by omega
    rw [hinv.refsEq t.rk, if_neg hne]
    exact ⟨refCount s t.rk, rfl⟩
  refine ⟨?_, ?_, ?_⟩
  · intro i t hget hpast heq
    obtain ⟨u, hu, hurk, huh⟩ := hinv.holderBwd t.rk i heq
    rw [hget] at hu
    injection hu with hu2
    subst hu2
    rcases hpast with h2 | h2 | h2 <;> rw [h2] at huh <;>
      exact Bool.false_ne_true huh
  · intro i t hget hpc hguard
    obtain ⟨n, hn⟩ := hrefs_of_doneBody i t hget hpc
    obtain ⟨s3, hrun3, _, _, _⟩ := exit_path_spec s i t n hget hpc hguard hn
    rw [hrun3]
    rfl
  · intro i t s3 hget hpc hguard hrun3
    obtain ⟨n, hn⟩ := hrefs_of_doneBody i t hget hpc
    obtain ⟨s3x, hrunx, hgx, hlx, hguardx⟩ :=
      exit_path_spec s i t n hget hpc hguard hn
    rw [hrun3] at hrunx
    injection hrunx with hx
    subst hx
    refine ⟨hgx, ?_, hguardx⟩
    intro heq
    rcases hlx with h2 | h2 <;> rw [h2] at heq
    · cases heq
    · injection heq with h3
      cases h3

/-- C5 witness: a handler that raised; the exit path runs, the outcome
(a raised error) is delivered at `done`, and the lock is no longer held
by the task. -/
theorem C5_release_on_every_exit_path_witness :
    run (initSys specsC5) evsC5w = some sysC5w
    ∧ sysC5w.tasks.get? 0 = some tC5
    ∧ tC5.pc = Pc.doneBody
    ∧ sysC5w.guard = none
    ∧ (run sysC5w evsC5exit).isSome = true
    ∧ run sysC5w evsC5exit = some sysC5b
    ∧ sysC5b.tasks.get? 0 = some { tC5 with pc := Pc.done }
    ∧ sysC5b.locks tC5.rk ≠ some (some 0)
    ∧ sysC5b.guard = none :=
  ⟨rfl, rfl, rfl, rfl,
   (C5_release_on_every_exit_path specsC5 evsC5w sysC5w rfl).2.1
     0 tC5 rfl rfl rfl,
   rfl,
   ((C5_release_on_every_exit_path specsC5 evsC5w sysC5w rfl).2.2
     0 tC5 sysC5b rfl rfl rfl rfl).1,
   ((C5_release_on_every_exit_path specsC5 evsC5w sysC5w rfl).2.2
     0 tC5 sysC5b rfl rfl rfl rfl).2.1,
   ((C5_release_on_every_exit_path specsC5 evsC5w sysC5w rfl).2.2
     0 tC5 sysC5b rfl rfl rfl rfl).2.2⟩

/-- C7: cross-route independence. Every enabled step taken by a task for
composite key `t.rk` leaves the lock table, the refcount table and the
sequence table unchanged at every composite whose route differs — in
particular at the same key value under any other route. All three tables
are indexed by the full (route, key) composite. -/
theorem C7_cross_route_independence (s : Sys) (e : Ev) (s2 : Sys)
    (t : Task) (hstep : step s e = some s2)
    (hget : s.tasks.get? (evTask e) = some t) :
    ∀ k : RK, k.route ≠ t.rk.route →
      s2.locks k = s.locks k ∧ s2.refs k = s.refs k
      ∧ s2.seen k = s.seen k := by
  intro k hk
  have hkne : k ≠ t.rk := fun h2 => hk (by rw [h2])
  cases e with
  | enterGuardAcq i =>
    simp only [step] at hstep
    split at hstep
    · cases hstep
    · rename_i u hgetu
      have hget2 : s.tasks.get? i = some t := hget
      rw [hget2] at hgetu
      injection hgetu with hu
      subst hu
      split at hstep
      · injection hstep with h2
        subst h2
        exact ⟨rfl, rfl, rfl⟩
      · cases hstep
  | enterGuardRel i =>
    simp only [step] at hstep
    split at hstep
    · cases hstep
    · rename_i u hgetu
      have hget2 : s.tasks.get? i = some t := hget
      rw [hget2] at hgetu
      injection hgetu with hu
      subst hu
      split at hstep
      · split at hstep
        · injection hstep with h2
          subst h2
          exact ⟨upd_other _ _ _ _ hkne, upd_other _ _ _ _ hkne, rfl⟩
        · injection hstep with h2
          subst h2
          exact ⟨rfl, upd_other _ _ _ _ hkne, rfl⟩
      · cases hstep
  | acquireLock i =>
    simp only [step] at hstep
    split at hstep
    · cases hstep
    · rename_i u hgetu
      have hget2 : s.tasks.get? i = some t := hget
      rw [hget2] at hgetu
      injection hgetu with hu
      subst hu
      split at hstep
      · split at hstep
        · injection hstep with h2
          subst h2
          exact ⟨upd_other _ _ _ _ hkne, rfl, rfl⟩
        · rename_i sv hsx
          split at hstep
          · injection hstep with h2
            subst h2
            exact ⟨upd_other _ _ _ _ hkne, rfl, rfl⟩
          · rename_i seen2 hchk
            injection hstep with h2
            subst h2
            refine ⟨upd_other _ _ _ _ hkne, rfl, ?_⟩
            have h3 : (seqCheck t.rk sv s.seen).2 k = s.seen k :=
              seqCheck_other _ _ _ _ hkne
            rw [hchk] at h3
            exact h3
      · cases hstep
  | cancelWait i =>
    simp only [step] at hstep
    split at hstep
    · cases hstep
    · rename_i u hgetu
      have hget2 : s.tasks.get? i = some t := hget
      rw [hget2] at hgetu
      injection hgetu with hu
      subst hu
      split at hstep
      · split at hstep
        · injection hstep with h2
          subst h2
          exact ⟨rfl, rfl, rfl⟩
        · cases hstep
      · cases hstep
  | finishBody i =>
    simp only [step] at hstep
    split at hstep
    · cases hstep
    · rename_i u hgetu
      have hget2 : s.tasks.get? i = some t := hget
      rw [hget2] at hgetu
      injection hgetu with hu
      subst hu
      split at hstep
      · split at hstep
        · injection hstep with h2
          subst h2
          exact ⟨rfl, rfl, rfl⟩
        · injection hstep with h2
          subst h2
          exact ⟨rfl, rfl, rfl⟩
      · cases hstep
  | releaseLock i =>
    simp only [step] at hstep
    split at hstep
    · cases hstep
    · rename_i u hgetu
      have hget2 : s.tasks.get? i = some t := hget
      rw [hget2] at hgetu
      injection hgetu with hu
      subst hu
      split at hstep
      · injection hstep with h2
        subst h2
        exact ⟨upd_other _ _ _ _ hkne, rfl, rfl⟩
      · cases hstep
  | exitGuardAcq i =>
    simp only [step] at hstep
    split at hstep
    · cases hstep
    · rename_i u hgetu
      have hget2 : s.tasks.get? i = some t := hget
      rw [hget2] at hgetu
      injection hgetu with hu
      subst hu
      split at hstep
      · injection hstep with h2
        subst h2
        exact ⟨rfl, rfl, rfl⟩
      · cases hstep
  | exitGuardRel i =>
    simp only [step] at hstep
    split at hstep
    · cases hstep
    · rename_i u hgetu
      have hget2 : s.tasks.get? i = some t := hget
      rw [hget2] at hgetu
      injection hgetu with hu
      subst hu
      split at hstep
      · split at hstep
        · cases hstep
        · split at hstep
          · injection hstep with h2
            subst h2
            exact ⟨upd_other _ _ _ _ hkne, upd_other _ _ _ _ hkne, rfl⟩
          · injection hstep with h2
            subst h2
            exact ⟨rfl, upd_other _ _ _ _ hkne, rfl⟩
      · cases hstep

/-- C7 witness: task 0 acquires ("r","a") and records sequence 5, which
changes that composite's lock and sequence entries but leaves the same
key value under route "r2" completely untouched. -/
theorem C7_cross_route_independence_witness :
    step sysC7pre (Ev.acquireLock 0) = some sysC7post
    ∧ sysC7pre.tasks.get? 0 = some tC7
    ∧ rkB.route ≠ tC7.rk.route
    ∧ sysC7post.locks rkB = sysC7pre.locks rkB
    ∧ sysC7post.refs rkB = sysC7pre.refs rkB
    ∧ sysC7post.seen rkB = sysC7pre.seen rkB
    ∧ sysC7post.seen rkA = some 5
    ∧ sysC7post.locks rkA = some (some 0) :=
  ⟨rfl, rfl, by decide,
   (C7_cross_route_independence sysC7pre (Ev.acquireLock 0) sysC7post
     tC7 rfl rfl rkB (by decide)).1,
   (C7_cross_route_independence sysC7pre (Ev.acquireLock 0) sysC7post
     tC7 rfl rfl rkB (by decide)).2.1,
   (C7_cross_route_independence sysC7pre (Ev.acquireLock 0) sysC7post
     tC7 rfl rfl rkB (by decide)).2.2,
   rfl, rfl⟩

/-- C3: a task cancelled while suspended in `await lock.acquire()` after
the refcount increment leaks that increment. In the source, the
increment happens inside `__aenter__` before the `acquire()` await; if a
CancelledError arrives during that await, `__aenter__` raises and
Python's `async with` never invokes `__aexit__`, so nothing decrements
the refcount or evicts the entry. Concretely: task 0 holds ("r","a"),
task 1 registers interest (refcount 2) and is cancelled while waiting,
task 0 then completes its whole exit path — yet the final state still
has refcount 1 and a live lock-table entry for the key although no task
holds or awaits it (task 0 is done, task 1 cancelled). -/
theorem C3_cancelled_waiter_leaks_refcount :
    run (initSys specsTwo) evsC3w = some sysC3w
    ∧ sysC3w.tasks.get? 0 = some tC3done
    ∧ sysC3w.tasks.get? 1 = some tC3cancelled
    ∧ critCount sysC3w rkA = 0
    ∧ sysC3w.refs rkA = some 1
    ∧ sysC3w.locks rkA = some none
    ∧ sysC3w.guard = none :=
  ⟨rfl, rfl, rfl, rfl, rfl, rfl, rfl⟩

end Aurora
